import Mathlib

/-!
Verification of the `release-manager` tool (Mina release toolkit).

The Rust sources are shallowly embedded: strings are lists of characters,
fallible operations return `Except ManagerError`, and the outcomes of external
subprocesses (dpkg-deb, aws, deb-s3, docker, md5sum, ...) are supplied through
explicit environment records so that each function's control flow and decision
logic are pure and executable.
-/

set_option maxHeartbeats 1000000
set_option maxRecDepth 40000

/-- Strings are modelled as lists of characters (Rust byte strings restricted
to their character content). -/
abbrev Str := List Char

/-- Embed a Lean string literal as a character list. -/
def strLit (s : String) : Str := s.data

/-- The newline character used by the control-file patcher. -/
def nlChar : Char := '\n'

/-- Whitespace predicate mirroring the characters Rust's `char::is_whitespace`
recognises in the ASCII range (the sources only ever meet ASCII whitespace). -/
def rustIsWs (c : Char) : Bool :=
  c = ' ' || c = '\t' || c = '\n' || c = '\r' || c = '\x0b' || c = '\x0c'

/-- Rust `str::trim_end`: drop trailing whitespace. -/
def trimEnd : Str → Str
  | [] => []
  | c :: rest =>
    let t := trimEnd rest
    if t = [] ∧ rustIsWs c then [] else c :: t

/-- Rust `str::trim_start`: drop leading whitespace. -/
def trimStart (s : Str) : Str := s.dropWhile rustIsWs

/-- Rust `str::trim`. -/
def rustTrim (s : Str) : Str := trimEnd (trimStart s)

/-- Split a string at every occurrence of a separator character, keeping all
segments (so the result has one more segment than separator occurrences). -/
def splitOnChar (sep : Char) : Str → List Str
  | [] => [[]]
  | c :: rest =>
    if c = sep then [] :: splitOnChar sep rest
    else
      match splitOnChar sep rest with
      | [] => [[c]]
      | l :: ls => (c :: l) :: ls

/-- Strip one trailing carriage return, as Rust `lines` does on each
newline-terminated segment. -/
def stripCr (l : Str) : Str := if l.getLast? = some '\r' then l.dropLast else l

/-- Post-processing of the segments produced by `splitOnChar nlChar`: every
segment except the last was newline-terminated and has a trailing `\r`
stripped; a final empty segment (from a trailing newline) is dropped. -/
def linesGo : List Str → List Str
  | [] => []
  | [last] => if last = [] then [] else [last]
  | seg :: rest => stripCr seg :: linesGo rest

/-- Rust `str::lines`. -/
def rustLines (s : Str) : List Str := linesGo (splitOnChar nlChar s)

/-- `Vec::join("\n")`: interleave lines with single newlines. -/
def joinLines : List Str → Str
  | [] => []
  | [l] => l
  | l :: rest => l ++ nlChar :: joinLines rest

/-- A list of lines, each terminated by a newline (canonical form of a
newline-terminated text file). -/
def termJoin : List Str → Str
  | [] => []
  | l :: rest => l ++ nlChar :: termJoin rest

/-- Rust `str::find` for a literal pattern: byte index of the first occurrence
(`Some 0` for the empty pattern, as in Rust). -/
def findSub (pat : Str) : Str → Option Nat
  | [] => if pat = [] then some 0 else none
  | c :: rest =>
    if pat.isPrefixOf (c :: rest) then some 0
    else (findSub pat rest).map (· + 1)

/-- Rust `str::contains` for a literal pattern. -/
def containsSub (pat s : Str) : Bool := (findSub pat s).isSome

/-- Fuel-driven worker for `replaceAllSub`; the fuel is an upper bound on the
length of the remaining input, so the recursion is structural. -/
def replaceAllGo (pat rep : Str) : Nat → Str → Str
  | _, [] => []
  | 0, s => s
  | fuel + 1, c :: rest =>
    if pat.isPrefixOf (c :: rest) then
      rep ++ replaceAllGo pat rep fuel (List.drop (pat.length - 1) rest)
    else
      c :: replaceAllGo pat rep fuel rest

/-- Rust `str::replace`: replace every (non-overlapping, left-to-right)
occurrence of `pat` with `rep`; the empty pattern matches at every character
boundary, exactly as in Rust. -/
def replaceAllSub (pat rep : Str) (s : Str) : Str :=
  if pat = [] then rep ++ s.flatMap (fun c => c :: rep)
  else replaceAllGo pat rep s.length s

/-- Rust `String::replace_range (a..b, rep)`. -/
def replaceRange (s : Str) (a b : Nat) (rep : Str) : Str :=
  List.take a s ++ rep ++ List.drop b s

/-- Rust slice `s[a..b]`. -/
def sliceStr (s : Str) (a b : Nat) : Str := List.take (b - a) (List.drop a s)

/-- Rust `str::split_whitespace`. -/
def splitWs (s : Str) : List Str :=
  let r := s.foldr
    (fun c (acc : Str × List Str) =>
      if rustIsWs c then ([], if acc.1 = [] then acc.2 else acc.1 :: acc.2)
      else (c :: acc.1, acc.2))
    ([], [])
  if r.1 = [] then r.2 else r.1 :: r.2

/-! ## Error type (`errors.rs`) -/

/-- The error kinds of `ManagerError` that the embedded code can produce. -/
inductive ManagerError where
  | IoError (msg : Str)
  | CommandFailed (msg : Str)
  | StorageError (msg : Str)
  | ArtifactNotFound (msg : Str)
  | ValidationError (msg : Str)
  | MissingParameter (msg : Str)
  | UnsupportedBackend (msg : Str)
  | UnknownArtifact (msg : Str)
deriving DecidableEq

abbrev ManagerResult (α : Type) := Except ManagerError α

instance exceptDecEq {ε α : Type} [DecidableEq ε] [DecidableEq α] :
    DecidableEq (Except ε α)
  | .ok a, .ok b =>
    if h : a = b then isTrue (by rw [h]) else isFalse (fun hh => h (Except.ok.inj hh))
  | .error a, .error b =>
    if h : a = b then isTrue (by rw [h]) else isFalse (fun hh => h (Except.error.inj hh))
  | .ok _, .error _ => isFalse (fun hh => Except.noConfusion hh)
  | .error _, .ok _ => isFalse (fun hh => Except.noConfusion hh)

/-! ## Debian package reversion (`reversion.rs`) -/

/-- `ReversionConfig`; the source `.deb` path is modelled as a parent
directory plus a file name (the only path structure `rebuild_package` uses). -/
structure ReversionConfig where
  debDir : Str
  debFile : Str
  package_name : Str
  source_version : Str
  new_version : Str
  suite : Str
  new_suite : Str
  new_name : Option Str
deriving DecidableEq

/-- The `Package:` line replacement block of `update_control_content`
(`reversion.rs` lines 152-160).  The Rust code also records a `modified` flag,
which only gates a console warning and is not otherwise observable. -/
def pkgStep (cfg : ReversionConfig) (r : Str) : Str :=
  match cfg.new_name with
  | none => r
  | some nn =>
    let package_pattern := strLit "Package: " ++ cfg.package_name
    let new_package_line := strLit "Package: " ++ nn
    if containsSub package_pattern r then replaceAllSub package_pattern new_package_line r
    else r

/-- The version replacement block of `update_control_content`
(`reversion.rs` lines 162-175). -/
def versionStep (cfg : ReversionConfig) (r : Str) : Str :=
  match findSub (strLit "Version: ") r with
  | none => r
  | some version_line_start =>
    match findSub [nlChar] (List.drop version_line_start r) with
    | none => r
    | some rel =>
      let version_line_end := version_line_start + rel
      let version_line := sliceStr r version_line_start version_line_end
      if containsSub cfg.source_version version_line then
        replaceRange r version_line_start version_line_end
          (replaceAllSub cfg.source_version cfg.new_version version_line)
      else r

/-- The distribution replacement block of `update_control_content`
(`reversion.rs` lines 177-186). -/
def distStep (cfg : ReversionConfig) (r : Str) : Str :=
  match findSub (strLit "Distribution: ") r with
  | none => r
  | some dist_start =>
    match findSub [nlChar] (List.drop dist_start r) with
    | none => r
    | some rel =>
      replaceRange r dist_start (dist_start + rel) (strLit "Distribution: " ++ cfg.new_suite)

/-- The final-newline and trailing-whitespace normalization of
`update_control_content` (`reversion.rs` lines 192-202). -/
def normalizeStep (r : Str) : Str :=
  let r1 := if r.getLast? = some nlChar then r else r ++ [nlChar]
  let r2 := joinLines ((rustLines r1).map trimEnd)
  if r2.getLast? = some nlChar then r2 else r2 ++ [nlChar]

/-- `update_control_content` (`reversion.rs` lines 148-205). -/
def update_control_content (cfg : ReversionConfig) (content : Str) : ManagerResult Str :=
  .ok (normalizeStep (distStep cfg (versionStep cfg (pkgStep cfg content))))

/-- `validate_inputs` (`reversion.rs` lines 71-92); whether the source archive
exists is supplied by the environment. -/
def validate_inputs (cfg : ReversionConfig) (debExists : Bool) : ManagerResult Unit :=
  if ¬ debExists then
    .error (.IoError (strLit "Source .deb file does not exist: " ++ cfg.debDir ++ ['/'] ++ cfg.debFile))
  else if cfg.source_version = [] then
    .error (.ValidationError (strLit "Source version cannot be empty"))
  else if cfg.new_version = [] then
    .error (.ValidationError (strLit "New version cannot be empty"))
  else if cfg.package_name = [] then
    .error (.ValidationError (strLit "Package name cannot be empty"))
  else .ok ()

/-- The file name `{new_package_name}_{new_version}.deb` built by
`rebuild_package` (`reversion.rs` line 266). -/
def new_deb_filename (cfg : ReversionConfig) : Str :=
  (cfg.new_name.getD cfg.package_name) ++ ['_'] ++ cfg.new_version ++ strLit ".deb"

/-- Filesystem operations performed by `rebuild_package`, each naming the
directory and file it touches. -/
inductive FsOp where
  | removeFile (dir file : Str)
  | buildDeb (dir file : Str)
deriving DecidableEq

/-- Environment for `rebuild_package`: whether a file already exists at the
target path, and the outcomes of `fs::remove_file` and `dpkg-deb --build`. -/
structure RebuildEnv where
  targetExists : Bool
  removeSuccess : Bool
  buildSuccess : Bool
  buildStderr : Str
  builtExists : Bool

/-- `rebuild_package` (`reversion.rs` lines 264-302): returns the list of
filesystem operations attempted (in order) and the overall result.  The new
archive path is always the source archive's parent directory joined with
`new_deb_filename`. -/
def rebuild_package (cfg : ReversionConfig) (env : RebuildEnv) :
    List FsOp × ManagerResult (Str × Str) :=
  let f := new_deb_filename cfg
  if env.targetExists then
    if ¬ env.removeSuccess then
      ([FsOp.removeFile cfg.debDir f], .error (.IoError (strLit "remove_file failed")))
    else
      ([FsOp.removeFile cfg.debDir f, FsOp.buildDeb cfg.debDir f],
       if ¬ env.buildSuccess then
         .error (.CommandFailed (strLit "dpkg-deb build failed: " ++ env.buildStderr))
       else if ¬ env.builtExists then
         .error (.IoError (strLit "New .deb package was not created: " ++ cfg.debDir ++ ['/'] ++ f))
       else .ok (cfg.debDir, f))
  else
    ([FsOp.buildDeb cfg.debDir f],
     if ¬ env.buildSuccess then
       .error (.CommandFailed (strLit "dpkg-deb build failed: " ++ env.buildStderr))
     else if ¬ env.builtExists then
       .error (.IoError (strLit "New .deb package was not created: " ++ cfg.debDir ++ ['/'] ++ f))
     else .ok (cfg.debDir, f))

/-- The directory and file a filesystem operation touches. -/
def FsOp.target : FsOp → Str × Str
  | .removeFile d f => (d, f)
  | .buildDeb d f => (d, f)

/-! ## Debian publishing (`debian_publish.rs`) -/

/-- Digits-only string to number (used by the timestamp parser). -/
def digitsToNat? (s : Str) : Option Nat :=
  if s ≠ [] ∧ s.all Char.isDigit then
    some (s.foldl (fun a c => a * 10 + (c.toNat - '0'.toNat)) 0)
  else none

def isLeapYear (y : Nat) : Bool := y % 4 = 0 && (y % 100 != 0 || y % 400 = 0)

def daysInMonth (y m : Nat) : Nat :=
  if m = 2 then (if isLeapYear y then 29 else 28)
  else if m = 4 ∨ m = 6 ∨ m = 9 ∨ m = 11 then 30
  else 31

def cumDaysBeforeMonth (m : Nat) : Nat :=
  [0, 31, 59, 90, 120, 151, 181, 212, 243, 273, 304, 334].getD (m - 1) 0

/-- Days elapsed since 0001-01-01 in the proleptic Gregorian calendar. -/
def daysFromYearOne (y m d : Nat) : Nat :=
  365 * (y - 1) + (y - 1) / 4 - (y - 1) / 100 + (y - 1) / 400 +
    cumDaysBeforeMonth m + (if 2 < m ∧ isLeapYear y then 1 else 0) + (d - 1)

/-- Model of chrono's `NaiveDateTime::parse_from_str` with format
`"%Y-%m-%d %H:%M:%S"`: a calendar-valid `YYYY-MM-DD HH:MM:SS` string maps to a
second count on a fixed linear timeline, anything else to `none`. -/
def parseDateTime (s : Str) : Option Int :=
  match splitOnChar ' ' s with
  | [dstr, tstr] =>
    match splitOnChar '-' dstr, splitOnChar ':' tstr with
    | [ys, ms, ds], [hs, mins, ss] =>
      match digitsToNat? ys, digitsToNat? ms, digitsToNat? ds,
            digitsToNat? hs, digitsToNat? mins, digitsToNat? ss with
      | some y, some mo, some da, some hh, some mi, some se =>
        if 1 ≤ y ∧ 1 ≤ mo ∧ mo ≤ 12 ∧ 1 ≤ da ∧ da ≤ daysInMonth y mo ∧
            hh ≤ 23 ∧ mi ≤ 59 ∧ se ≤ 59 then
          some ((daysFromYearOne y mo da : Int) * 86400 + hh * 3600 + mi * 60 + se)
        else none
      | _, _, _, _, _, _ => none
    | _, _ => none
  | _ => none

/-- Environment for `remove_lockfile`: outcome of `aws s3 ls` on the lockfile
path, the current time (seconds on the same timeline as `parseDateTime`), and
the outcome of `aws s3 rm`. -/
structure LockEnv where
  lsSuccess : Bool
  lsStdout : Str
  now : Int
  rmSuccess : Bool
  rmStderr : Str
deriving DecidableEq

/-- `delete_lockfile` (`debian_publish.rs` lines 100-115). -/
def delete_lockfile (env : LockEnv) : ManagerResult Unit :=
  if ¬ env.rmSuccess then
    .error (.CommandFailed (strLit "Failed to delete lockfile: " ++ env.rmStderr))
  else .ok ()

/-- `remove_lockfile` (`debian_publish.rs` lines 39-97).  The Boolean result
records whether the lock marker was actually removed (a deletion was attempted
and `aws s3 rm` succeeded). -/
def remove_lockfile (env : LockEnv) : Bool × ManagerResult Unit :=
  if ¬ env.lsSuccess then (false, .ok ())
  else if rustTrim env.lsStdout = [] then (false, .ok ())
  else
    match splitWs env.lsStdout with
    | p0 :: p1 :: _ =>
      let date_str := p0 ++ [' '] ++ p1
      match parseDateTime date_str with
      | none =>
        (false, .error (.ValidationError (strLit "Failed to parse timestamp")))
      | some lockfile_time =>
        let time_diff := env.now - lockfile_time
        if time_diff > 300 then
          match delete_lockfile env with
          | .error e => (false, .error e)
          | .ok () => (true, .ok ())
        else
          (false, .error (.ValidationError
            (strLit "Lockfile is too recent. There may be an active deb-s3 instance using it.")))
    | _ =>
      match delete_lockfile env with
      | .error e => (false, .error e)
      | .ok () =>
        (true, .error (.CommandFailed
          (strLit "Could not get lockfile timestamp from S3 bucket. Check AWS credentials.")))

/-- `DebianPublishConfig`. -/
structure DebianPublishConfig where
  package_path : Str
  version : Str
  bucket : Str
  codename : Str
  release : Str
  sign_key : Option Str
  debug : Bool
deriving DecidableEq

/-- `validate_config` of `DebianPublisher` (`debian_publish.rs` lines 234-251). -/
def validate_publish_config (c : DebianPublishConfig) : ManagerResult Unit :=
  if c.package_path = [] then .error (.ValidationError (strLit "Package path cannot be empty"))
  else if c.version = [] then .error (.ValidationError (strLit "Version cannot be empty"))
  else if c.bucket = [] then .error (.ValidationError (strLit "Bucket cannot be empty"))
  else if c.codename = [] then .error (.ValidationError (strLit "Codename cannot be empty"))
  else if c.release = [] then .error (.ValidationError (strLit "Release cannot be empty"))
  else .ok ()

/-- Environment for `publish`: whether the package file exists, the outcome of
the single `deb-s3 upload` invocation, the lockfile environment consulted on a
lock conflict, and the outcome of `deb-s3 verify`. -/
structure PublishEnv where
  fileExists : Bool
  uploadSuccess : Bool
  uploadStdout : Str
  uploadStderr : Str
  lockEnv : LockEnv
  verifySuccess : Bool
  verifyStderr : Str
deriving DecidableEq

/-- The `CommandFailed` message `publish` reports when `deb-s3 upload` fails
(`debian_publish.rs` lines 183-185). -/
def uploadFailedMsg (env : PublishEnv) : Str :=
  strLit "deb-s3 upload failed. Stdout: " ++ env.uploadStdout ++
    strLit ", Stderr: " ++ env.uploadStderr

/-- `publish` (`debian_publish.rs` lines 118-200): returns whether the lock
marker ended up removed, how many `deb-s3 upload` invocations were issued, and
the result.  On an upload failure whose stderr indicates a lock conflict the
publisher runs `remove_lockfile`, swallowing its result, and still reports the
original upload error. -/
def publish (cfg : DebianPublishConfig) (env : PublishEnv) :
    Bool × Nat × ManagerResult Unit :=
  match validate_publish_config cfg with
  | .error e => (false, 0, .error e)
  | .ok () =>
    if ¬ env.fileExists then
      (false, 0, .error (.ValidationError (strLit "Package file not found: " ++ cfg.package_path)))
    else if ¬ env.uploadSuccess then
      let lockConflict := containsSub (strLit "lockfile") env.uploadStderr ||
        containsSub (strLit "locked") env.uploadStderr
      let removed := if lockConflict then (remove_lockfile env.lockEnv).1 else false
      (removed, 1, .error (.CommandFailed (uploadFailedMsg env)))
    else if ¬ env.verifySuccess then
      (false, 1, .error (.CommandFailed (strLit "deb-s3 verify failed: " ++ env.verifyStderr)))
    else (false, 1, .ok ())

/-! ## Artifact cache (`storage.rs`, `artifacts.rs`) -/

/-- `get_artifact_with_suffix` (`artifacts.rs` lines 46-71). -/
def get_artifact_with_suffix (artifact : Str) (network : Option Str) : Str :=
  if artifact = strLit "mina-daemon" then
    match network with
    | some n => strLit "mina-" ++ n
    | none => artifact
  else if artifact = strLit "mina-rosetta" then
    match network with
    | some n => strLit "mina-rosetta-" ++ n
    | none => artifact
  else if artifact = strLit "mina-archive" then
    match network with
    | some n => strLit "mina-archive-" ++ n
    | none => artifact
  else artifact

/-- Environment for `get_cached_debian_or_download`: the remote listing, the
remote hash, directory creation, the cache-directory entries (each paired with
the first word of a successful `md5sum` run, or `none` when `md5sum` fails or
prints nothing), and the download outcome. -/
structure CacheEnv where
  listResult : ManagerResult (List Str)
  md5Result : ManagerResult Str
  mkdirSuccess : Bool
  dirEntries : Option (List (Str × Option Str))
  downloadResult : ManagerResult Unit

/-- The cache-scan loop of `get_cached_debian_or_download` (`storage.rs` lines
245-267): `true` iff some entry whose name starts with the prefix hashes to
the target (the Rust loop returns early on the first such entry and otherwise
keeps scanning). -/
def cacheScan (pre tgt : Str) : List (Str × Option Str) → Bool
  | [] => false
  | (name, h?) :: rest =>
    if pre.isPrefixOf name then
      match h? with
      | some h => if h = tgt then true else cacheScan pre tgt rest
      | none => cacheScan pre tgt rest
    else cacheScan pre tgt rest

/-- `get_cached_debian_or_download` (`storage.rs` lines 207-273): returns
whether a download was issued, and the result. -/
def get_cached_debian_or_download (artifact : Str) (network : Option Str)
    (buildkite_build_id : Str) (env : CacheEnv) : Bool × ManagerResult Unit :=
  let artifact_full_name := get_artifact_with_suffix artifact network
  match env.listResult with
  | .error e => (false, .error e)
  | .ok files =>
    if files = [] then
      (false, .error (.ArtifactNotFound
        (strLit "No debian package found for " ++ artifact_full_name ++
          strLit " (build: " ++ buildkite_build_id ++ [')'])))
    else
      match env.md5Result with
      | .error e => (false, .error e)
      | .ok target_hash =>
        if ¬ env.mkdirSuccess then (false, .error (.IoError (strLit "create_dir_all failed")))
        else
          let hit :=
            match env.dirEntries with
            | none => false
            | some entries => cacheScan (artifact_full_name ++ ['_']) target_hash entries
          if hit then (false, .ok ())
          else
            match env.downloadResult with
            | .ok () => (true, .ok ())
            | .error e => (true, .error e)

/-! ## Docker promotion (`docker_promote.rs`) -/

/-- `DockerPromoteConfig`. -/
structure DockerPromoteConfig where
  name : Str
  source_version : Str
  target_version : Str
  publishToDockerIo : Bool
  quiet : Bool
deriving DecidableEq

/-- `DockerRegistryConfig`. -/
structure DockerRegistryConfig where
  source_registry : Str
  target_registry : Str
  image_name : Str
  source_tag : Str
  target_tag : Str
deriving DecidableEq

def GCR_REGISTRY : Str := strLit "gcr.io/o1labs-192920"
def DOCKER_REGISTRY : Str := strLit "docker.io/minaprotocol"

/-- A docker CLI invocation. -/
inductive DockerCmd where
  | pull (image : Str)
  | tag (source target : Str)
  | push (image : Str)
deriving DecidableEq

/-- The full image reference `{registry}/{image-name}:{tag}`. -/
def imageRef (registry name tg : Str) : Str :=
  registry ++ ['/'] ++ name ++ [':'] ++ tg

/-- `validate_config` of `DockerPromoter` (`docker_promote.rs` lines 74-85). -/
def validate_promote_config (c : DockerPromoteConfig) : ManagerResult Unit :=
  if c.name = [] then .error (.ValidationError (strLit "Name cannot be empty"))
  else if c.source_version = [] then
    .error (.ValidationError (strLit "Source version cannot be empty"))
  else if c.target_version = [] then
    .error (.ValidationError (strLit "Target version cannot be empty"))
  else .ok ()

/-- `validate_config` of `DockerRegistryManager` (`docker_promote.rs` lines
226-243). -/
def validate_registry_config (c : DockerRegistryConfig) : ManagerResult Unit :=
  if c.source_registry = [] then
    .error (.ValidationError (strLit "Source registry cannot be empty"))
  else if c.target_registry = [] then
    .error (.ValidationError (strLit "Target registry cannot be empty"))
  else if c.image_name = [] then
    .error (.ValidationError (strLit "Image name cannot be empty"))
  else if c.source_tag = [] then
    .error (.ValidationError (strLit "Source tag cannot be empty"))
  else if c.target_tag = [] then
    .error (.ValidationError (strLit "Target tag cannot be empty"))
  else .ok ()

/-- Environment for the promotion: outcomes of `docker pull`, `docker tag` and
`docker push`. -/
structure DockerEnv where
  pullSuccess : Bool
  pullStderr : Str
  tagSuccess : Bool
  tagStderr : Str
  pushSuccess : Bool
  pushStderr : Str
deriving DecidableEq

/-- `cross_registry_promote` (`docker_promote.rs` lines 135-163): returns the
docker commands issued, in order, and the result. -/
def cross_registry_promote (c : DockerRegistryConfig) (env : DockerEnv) :
    List DockerCmd × ManagerResult Unit :=
  match validate_registry_config c with
  | .error e => ([], .error e)
  | .ok () =>
    let source_image := imageRef c.source_registry c.image_name c.source_tag
    let target_image := imageRef c.target_registry c.image_name c.target_tag
    if ¬ env.pullSuccess then
      ([DockerCmd.pull source_image],
       .error (.CommandFailed (strLit "Docker pull failed: " ++ env.pullStderr)))
    else if ¬ env.tagSuccess then
      ([DockerCmd.pull source_image, DockerCmd.tag source_image target_image],
       .error (.CommandFailed (strLit "Docker tag failed: " ++ env.tagStderr)))
    else if ¬ env.pushSuccess then
      ([DockerCmd.pull source_image, DockerCmd.tag source_image target_image,
        DockerCmd.push target_image],
       .error (.CommandFailed (strLit "Docker push failed: " ++ env.pushStderr)))
    else
      ([DockerCmd.pull source_image, DockerCmd.tag source_image target_image,
        DockerCmd.push target_image], .ok ())

/-- `promote` of `DockerPromoter` (`docker_promote.rs` lines 34-71). -/
def promote (c : DockerPromoteConfig) (env : DockerEnv) :
    List DockerCmd × ManagerResult Unit :=
  match validate_promote_config c with
  | .error e => ([], .error e)
  | .ok () =>
    let rc : DockerRegistryConfig :=
      if c.publishToDockerIo then
        { source_registry := GCR_REGISTRY, target_registry := DOCKER_REGISTRY,
          image_name := c.name, source_tag := c.source_version, target_tag := c.target_version }
      else
        { source_registry := GCR_REGISTRY, target_registry := GCR_REGISTRY,
          image_name := c.name, source_tag := c.source_version, target_tag := c.target_version }
    cross_registry_promote rc env

/-! ## Line-level description of the control-file patch

These functions express the patch blocks of `update_control_content` as
transformations of a list of (newline-free) lines; the lemmas below prove that
on newline-terminated input the string-level code coincides with them. -/

/-- Line-level effect of the `Package:` block: on each line, every occurrence
of `Package: <old-name>` is replaced (the Rust code replaces across the whole
content, which acts linewise since the pattern contains no newline). -/
def pkgLineEdit (cfg : ReversionConfig) (l : Str) : Str :=
  match cfg.new_name with
  | none => l
  | some nn =>
    replaceAllSub (strLit "Package: " ++ cfg.package_name) (strLit "Package: " ++ nn) l

/-- Line-level effect of the version block on the single line holding the
first `Version: ` occurrence: from that occurrence to the end of the line,
every occurrence of the old version is replaced. -/
def versionLineEdit (cfg : ReversionConfig) (l : Str) : Str :=
  match findSub (strLit "Version: ") l with
  | none => l
  | some k =>
    if containsSub cfg.source_version (List.drop k l) then
      List.take k l ++ replaceAllSub cfg.source_version cfg.new_version (List.drop k l)
    else l

/-- Line-level version block: only the first line containing `Version: ` is
edited. -/
def versionLines (cfg : ReversionConfig) : List Str → List Str
  | [] => []
  | l :: rest =>
    if containsSub (strLit "Version: ") l then versionLineEdit cfg l :: rest
    else l :: versionLines cfg rest

/-- Line-level effect of the distribution block on the single line holding the
first `Distribution: ` occurrence: from that occurrence to the end of the line
the text becomes `Distribution: <new-suite>`. -/
def distLineEdit (cfg : ReversionConfig) (l : Str) : Str :=
  match findSub (strLit "Distribution: ") l with
  | none => l
  | some k => List.take k l ++ strLit "Distribution: " ++ cfg.new_suite

/-- Line-level distribution block: only the first line containing
`Distribution: ` is edited. -/
def distLines (cfg : ReversionConfig) : List Str → List Str
  | [] => []
  | l :: rest =>
    if containsSub (strLit "Distribution: ") l then distLineEdit cfg l :: rest
    else l :: distLines cfg rest

/-- The composed line-level patch. -/
def controlLines (cfg : ReversionConfig) (ls : List Str) : List Str :=
  distLines cfg (versionLines cfg (ls.map (pkgLineEdit cfg)))

/-- Index of the first line satisfying a predicate. -/
def firstIdxWith (p : Str → Bool) : List Str → Option Nat
  | [] => none
  | l :: rest => if p l then some 0 else (firstIdxWith p rest).map (· + 1)

/-- A string ends in exactly one newline: its last character is a newline and
the character before it (if any) is not. -/
def oneTrailingNewline (s : Str) : Bool :=
  s.getLast? = some nlChar && ¬ s.dropLast.getLast? = some nlChar

/-! ## Concrete inputs used for witnesses and counterexamples -/

/-- A baseline reversion configuration (the data of the Rust unit test
`test_control_content_update`). -/
def cfgBase : ReversionConfig :=
  { debDir := strLit "d", debFile := strLit "x.deb",
    package_name := strLit "test-package", source_version := strLit "1.0.0",
    new_version := strLit "1.0.1", suite := strLit "unstable",
    new_suite := strLit "stable", new_name := some (strLit "new-package") }

/-- Configuration whose target archive name collides with the source archive
name: same package name, and the new version equals the version embedded in
the source file name. -/
def cfgCollide : ReversionConfig :=
  { debDir := strLit "d", debFile := strLit "pkg_2.0.deb",
    package_name := strLit "pkg", source_version := strLit "1.0",
    new_version := strLit "2.0", suite := strLit "unstable",
    new_suite := strLit "stable", new_name := none }

/-- Configuration for the rebuild frame witness: target name distinct from the
source file name. -/
def cfgFresh : ReversionConfig :=
  { debDir := strLit "d", debFile := strLit "pkg_1.0.deb",
    package_name := strLit "pkg", source_version := strLit "1.0",
    new_version := strLit "2.0", suite := strLit "unstable",
    new_suite := strLit "stable", new_name := none }

/-- A rebuild environment in which every external step succeeds. -/
def rebuildEnvOk : RebuildEnv :=
  { targetExists := true, removeSuccess := true, buildSuccess := true,
    buildStderr := [], builtExists := true }

/-- A lock environment whose marker carries the parseable timestamp
`2023-12-01 14:30:00`, observed at time `n`. -/
def lockEnvAt (n : Int) : LockEnv :=
  { lsSuccess := true, lsStdout := strLit "2023-12-01 14:30:00     123 lockfile",
    now := n, rmSuccess := true, rmStderr := [] }

/-- The instant encoded by the marker of `lockEnvAt`. -/
def lockT0 : Int := (parseDateTime (strLit "2023-12-01 14:30:00")).getD 0

/-- A lock environment whose `aws s3 ls` output has two whitespace-separated
fields that do not parse as a timestamp. -/
def lockEnvGarbage : LockEnv :=
  { lsSuccess := true, lsStdout := strLit "NotADate NotATime lockfile",
    now := 0, rmSuccess := true, rmStderr := [] }

/-- A lock environment whose `aws s3 ls` output has a single field. -/
def lockEnvOneField : LockEnv :=
  { lsSuccess := true, lsStdout := strLit "  xx ", now := 0,
    rmSuccess := true, rmStderr := [] }

/-- A publish configuration with all fields present. -/
def pubCfg : DebianPublishConfig :=
  { package_path := strLit "/tmp/p.deb", version := strLit "1.0.0",
    bucket := strLit "bkt", codename := strLit "bullseye",
    release := strLit "stable", sign_key := none, debug := false }

/-- A publish environment in which the upload fails with a lockfile conflict
and the marker of `lockEnvAt` is ten minutes old. -/
def pubEnvLockConflict : PublishEnv :=
  { fileExists := true, uploadSuccess := false,
    uploadStdout := [], uploadStderr := strLit "error: lockfile exists",
    lockEnv := lockEnvAt (lockT0 + 600), verifySuccess := true, verifyStderr := [] }

/-- A cache environment whose remote listing succeeds and is empty. -/
def cacheEnvEmptyListing : CacheEnv :=
  { listResult := .ok [], md5Result := .ok (strLit "h"), mkdirSuccess := true,
    dirEntries := some [], downloadResult := .ok () }

/-- A cache environment with one remote file, remote hash `aaa`, and a cache
directory already holding a correctly-hashed matching file. -/
def cacheEnvHit : CacheEnv :=
  { listResult := .ok [strLit "r/mina-daemon_1.0.deb"],
    md5Result := .ok (strLit "aaa"), mkdirSuccess := true,
    dirEntries := some [(strLit "mina-daemon_1.0.deb", some (strLit "aaa"))],
    downloadResult := .ok () }

/-- The same cache environment after the remote hash changed to `bbb`. -/
def cacheEnvMiss : CacheEnv :=
  { cacheEnvHit with md5Result := .ok (strLit "bbb") }

/-- A promotion configuration with all fields present. -/
def promoteCfg : DockerPromoteConfig :=
  { name := strLit "mina-daemon", source_version := strLit "1.0.0-dev",
    target_version := strLit "1.0.0", publishToDockerIo := true, quiet := false }

/-- A docker environment in which `docker pull` fails. -/
def dockerEnvPullFail : DockerEnv :=
  { pullSuccess := false, pullStderr := strLit "no such image",
    tagSuccess := true, tagStderr := [], pushSuccess := true, pushStderr := [] }

/-- A docker environment in which every step succeeds. -/
def dockerEnvOk : DockerEnv :=
  { pullSuccess := true, pullStderr := [], tagSuccess := true, tagStderr := [],
    pushSuccess := true, pushStderr := [] }

/-- A configuration that renames nothing (no new name). -/
def cfgPlain : ReversionConfig :=
  { debDir := strLit "d", debFile := strLit "x.deb",
    package_name := strLit "test-package", source_version := strLit "1.0.0",
    new_version := strLit "1.0.1", suite := strLit "unstable",
    new_suite := strLit "stable", new_name := none }

/-- A configuration replacing version `1.0` by `2.0` with no renaming. -/
def cfgVer : ReversionConfig :=
  { debDir := strLit "d", debFile := strLit "x.deb",
    package_name := strLit "pkg", source_version := strLit "1.0",
    new_version := strLit "2.0", suite := strLit "unstable",
    new_suite := strLit "stable", new_name := none }

/-- Control-file lines used by the C1 witness. -/
def ctrlLinesW : List Str :=
  [strLit "Package: test-package", strLit "Version: 1.0.0-1",
   strLit "Architecture: amd64", strLit "Description: Test package",
   strLit " Multi-line description"]

/-- Control-file lines whose first `Version: ` occurrence sits inside a
non-version field line. -/
def ctrlLinesVer : List Str :=
  [strLit "Desc: see Version: 1.0 x", strLit "Version: 1.0"]

/-! ## Basic lemmas about the string primitives -/

theorem trimEnd_eq_nil_iff (s : Str) : trimEnd s = [] ↔ ∀ c ∈ s, rustIsWs c = true := by
  induction s with
  | nil => simp [trimEnd]
  | cons c rest ih =>
    simp only [trimEnd]
    by_cases h : trimEnd rest = [] ∧ rustIsWs c = true
    · rw [if_pos h]
      simp only [List.mem_cons, true_iff]
      intro d hd
      rcases hd with hd | hd
      · rw [hd]; exact h.2
      · exact ih.mp h.1 d hd
    · rw [if_neg h]
      simp only [List.mem_cons]
      constructor
      · intro hab; exact absurd hab (List.cons_ne_nil _ _)
      · intro hall
        exact absurd ⟨ih.mpr (fun d hd => hall d (Or.inr hd)), hall c (Or.inl rfl)⟩ h

theorem rustTrim_eq_nil_iff (s : Str) : rustTrim s = [] ↔ ∀ c ∈ s, rustIsWs c = true := by
  unfold rustTrim trimStart
  rw [trimEnd_eq_nil_iff]
  constructor
  · intro h c hc
    rcases List.mem_append.mp ((List.takeWhile_append_dropWhile (p := rustIsWs) (l := s)) ▸ hc) with hc' | hc'
    · exact List.mem_takeWhile_imp hc'
    · exact h c hc'
  · intro h c hc
    exact h c (List.dropWhile_sublist _ |>.mem hc)

theorem splitWs_eq_nil_of_all_ws (s : Str) (h : ∀ c ∈ s, rustIsWs c = true) :
    splitWs s = [] := by
  unfold splitWs
  have hf : s.foldr
      (fun c (acc : Str × List Str) =>
        if rustIsWs c then ([], if acc.1 = [] then acc.2 else acc.1 :: acc.2)
        else (c :: acc.1, acc.2))
      ([], []) = ([], []) := by
    induction s with
    | nil => rfl
    | cons c rest ih =>
      rw [List.foldr_cons, ih (fun d hd => h d (List.mem_cons_of_mem _ hd))]
      simp [h c (List.mem_cons_self _ _)]
  rw [hf]
  rfl

theorem splitWs_cons_trim_ne_nil (s : Str) (p0 p1 : Str) (rest : List Str)
    (h : splitWs s = p0 :: p1 :: rest) : ¬ rustTrim s = [] := by
  intro hnil
  have := splitWs_eq_nil_of_all_ws s ((rustTrim_eq_nil_iff s).mp hnil)
  rw [h] at this
  exact List.noConfusion this

/-! ## C2, C4: lock staleness -/

/-- C2 (amended): for a parseable lock-marker timestamp, the publisher removes
the marker exactly when its age is strictly greater than 300 seconds; at age
at most 300 seconds (in particular exactly 300) the marker is left intact and
a concurrency `ValidationError` is reported. -/
theorem remove_lockfile_staleness (env : LockEnv) (t : Int) (p0 p1 : Str) (rest : List Str)
    (hls : env.lsSuccess = true)
    (hparts : splitWs env.lsStdout = p0 :: p1 :: rest)
    (hdate : parseDateTime (p0 ++ [' '] ++ p1) = some t)
    (hrm : env.rmSuccess = true) :
    (env.now - t > 300 → remove_lockfile env = (true, .ok ())) ∧
    (env.now - t ≤ 300 → remove_lockfile env = (false, .error (.ValidationError
      (strLit "Lockfile is too recent. There may be an active deb-s3 instance using it.")))) := by
  have htrim := splitWs_cons_trim_ne_nil _ _ _ _ hparts
  constructor
  · intro hgt
    simp only [remove_lockfile, hls, htrim, hparts, hdate, delete_lockfile, hrm]
    simp [hgt]
  · intro hle
    simp only [remove_lockfile, hls, htrim, hparts, hdate, delete_lockfile, hrm]
    simp [not_lt.mpr hle]

/-- Witness for C2's amended theorem: a marker 301 seconds old is removed. -/
theorem remove_lockfile_staleness_witness :
    remove_lockfile (lockEnvAt (lockT0 + 301)) = (true, .ok ()) :=
  (remove_lockfile_staleness (lockEnvAt (lockT0 + 301)) lockT0
      (strLit "2023-12-01") (strLit "14:30:00") [strLit "123", strLit "lockfile"]
      rfl (by decide) (by decide) rfl).1 (by decide)

/-- C2 counterexample: a marker aged exactly 300 seconds is NOT removed — the
publisher refuses and reports a concurrency `ValidationError`, contradicting
the claim that age at least 300 seconds is removable. -/
theorem remove_lockfile_boundary_300 :
    remove_lockfile (lockEnvAt (lockT0 + 300)) = (false, .error (.ValidationError
      (strLit "Lockfile is too recent. There may be an active deb-s3 instance using it."))) := by
  decide

/-- C4 (amended): when the `aws s3 ls` output has fewer than two
whitespace-separated fields the publisher deletes the marker defensively and
reports a `CommandFailed`; but when it has at least two fields whose leading
two do not parse as a timestamp, it reports a `ValidationError` WITHOUT
deleting the marker. -/
theorem remove_lockfile_unparsable (env : LockEnv)
    (hls : env.lsSuccess = true)
    (htrim : ¬ rustTrim env.lsStdout = [])
    (hrm : env.rmSuccess = true) :
    ((splitWs env.lsStdout).length < 2 →
      remove_lockfile env = (true, .error (.CommandFailed
        (strLit "Could not get lockfile timestamp from S3 bucket. Check AWS credentials.")))) ∧
    (∀ p0 p1 rest, splitWs env.lsStdout = p0 :: p1 :: rest →
      parseDateTime (p0 ++ [' '] ++ p1) = none →
      remove_lockfile env = (false, .error (.ValidationError
        (strLit "Failed to parse timestamp")))) := by
  constructor
  · intro hlen
    simp only [remove_lockfile, hls, htrim, delete_lockfile, hrm]
    match hp : splitWs env.lsStdout with
    | [] => simp
    | [p0] => simp
    | p0 :: p1 :: rest =>
      rw [hp, List.length_cons, List.length_cons] at hlen
      omega
  · intro p0 p1 rest hparts hnone
    simp only [remove_lockfile, hls, htrim, hparts, hnone, delete_lockfile, hrm]
    simp

/-- Witness for C4's amended theorem: a one-field listing output leads to a
defensive delete plus a `CommandFailed` report. -/
theorem remove_lockfile_unparsable_witness :
    remove_lockfile lockEnvOneField = (true, .error (.CommandFailed
      (strLit "Could not get lockfile timestamp from S3 bucket. Check AWS credentials."))) :=
  (remove_lockfile_unparsable lockEnvOneField rfl (by decide) rfl).1 (by decide)

/-- C4 counterexample: a marker whose listing has two fields that do not parse
as a timestamp is left in place (not deleted), and a `ValidationError` is
reported — contradicting the claim that every unparsable timestamp leads to a
defensive delete. -/
theorem remove_lockfile_unparsable_kept :
    remove_lockfile lockEnvGarbage = (false, .error (.ValidationError
      (strLit "Failed to parse timestamp"))) := by
  decide

/-! ## C6: lock-conflict recovery during publish -/

/-- C6: when the upload fails with a lock-conflict error text (stderr
containing "lockfile" or "locked") and the marker is stale (strictly older
than 300 seconds, e.g. ten minutes), the publisher deletes the marker, issues
exactly one upload (no automatic re-upload), and still returns the original
upload `CommandFailed` error. -/
theorem publish_lock_conflict_reports_original (cfg : DebianPublishConfig)
    (env : PublishEnv) (t : Int) (p0 p1 : Str) (rest : List Str)
    (hv : validate_publish_config cfg = .ok ())
    (hf : env.fileExists = true)
    (hu : env.uploadSuccess = false)
    (hconf : containsSub (strLit "lockfile") env.uploadStderr = true ∨
      containsSub (strLit "locked") env.uploadStderr = true)
    (hls : env.lockEnv.lsSuccess = true)
    (hparts : splitWs env.lockEnv.lsStdout = p0 :: p1 :: rest)
    (hdate : parseDateTime (p0 ++ [' '] ++ p1) = some t)
    (hstale : env.lockEnv.now - t > 300)
    (hrm : env.lockEnv.rmSuccess = true) :
    publish cfg env = (true, 1, .error (.CommandFailed (uploadFailedMsg env))) := by
  have hlock := (remove_lockfile_staleness env.lockEnv t p0 p1 rest hls hparts hdate hrm).1 hstale
  have hor : (containsSub (strLit "lockfile") env.uploadStderr ||
      containsSub (strLit "locked") env.uploadStderr) = true := by
    rcases hconf with h | h <;> simp [h]
  simp only [publish, hv, hf, hu, hor]
  simp [hlock]

/-- Witness for C6: concrete conflicting upload with a ten-minute-old marker. -/
theorem publish_lock_conflict_witness :
    publish pubCfg pubEnvLockConflict =
      (true, 1, .error (.CommandFailed (uploadFailedMsg pubEnvLockConflict))) :=
  publish_lock_conflict_reports_original pubCfg pubEnvLockConflict lockT0
    (strLit "2023-12-01") (strLit "14:30:00") [strLit "123", strLit "lockfile"]
    (by decide) rfl rfl (Or.inl (by decide)) rfl (by decide) (by decide) (by decide) rfl

/-! ## C8, C5: artifact cache -/

/-- C8: a successful but empty remote listing fails with `ArtifactNotFound`
and issues no download. -/
theorem cache_empty_listing_not_found (artifact : Str) (network : Option Str)
    (bid : Str) (env : CacheEnv) (h : env.listResult = .ok []) :
    get_cached_debian_or_download artifact network bid env =
      (false, .error (.ArtifactNotFound
        (strLit "No debian package found for " ++ get_artifact_with_suffix artifact network ++
          strLit " (build: " ++ bid ++ [')']))) := by
  simp [get_cached_debian_or_download, h]

/-- Witness for C8. -/
theorem cache_empty_listing_not_found_witness :
    get_cached_debian_or_download (strLit "mina-daemon") none (strLit "b1") cacheEnvEmptyListing =
      (false, .error (.ArtifactNotFound
        (strLit "No debian package found for " ++
          get_artifact_with_suffix (strLit "mina-daemon") none ++
          strLit " (build: " ++ strLit "b1" ++ [')']))) :=
  cache_empty_listing_not_found (strLit "mina-daemon") none (strLit "b1")
    cacheEnvEmptyListing rfl

theorem cacheScan_eq_true_iff (pre tgt : Str) (es : List (Str × Option Str)) :
    cacheScan pre tgt es = true ↔
      ∃ p ∈ es, pre.isPrefixOf p.1 = true ∧ p.2 = some tgt := by
  induction es with
  | nil => simp [cacheScan]
  | cons e rest ih =>
    obtain ⟨name, hv⟩ := e
    rw [List.exists_mem_cons_iff]
    cases hv with
    | none =>
      simp only [cacheScan]
      by_cases hp : pre.isPrefixOf name = true
      · simp [hp, ih]
      · simp [hp, ih]
    | some h =>
      simp only [cacheScan]
      by_cases hp : pre.isPrefixOf name = true
      · by_cases he : h = tgt
        · simp [hp, he]
        · simp [hp, he, ih]
      · simp [hp, ih]

/-- C5: with a non-empty remote listing, a known remote hash and a readable
cache directory, the cache access skips the download exactly when some cached
file whose name starts with the artifact's full name followed by an
underscore hashes to the remote hash; otherwise a download is issued. -/
theorem cache_download_iff_no_hash_match (artifact : Str) (network : Option Str)
    (bid : Str) (env : CacheEnv) (files : List Str) (tgt : Str)
    (entries : List (Str × Option Str))
    (hl : env.listResult = .ok files) (hf : files ≠ [])
    (hm : env.md5Result = .ok tgt) (hk : env.mkdirSuccess = true)
    (he : env.dirEntries = some entries) :
    ((∃ p ∈ entries,
        (get_artifact_with_suffix artifact network ++ ['_']).isPrefixOf p.1 = true ∧
          p.2 = some tgt) →
      get_cached_debian_or_download artifact network bid env = (false, .ok ())) ∧
    ((¬ ∃ p ∈ entries,
        (get_artifact_with_suffix artifact network ++ ['_']).isPrefixOf p.1 = true ∧
          p.2 = some tgt) →
      (get_cached_debian_or_download artifact network bid env).1 = true) := by
  constructor
  · intro hhit
    have hscan := (cacheScan_eq_true_iff _ tgt entries).mpr hhit
    simp [get_cached_debian_or_download, hl, hf, hm, hk, he, hscan]
  · intro hmiss
    have hscan : cacheScan (get_artifact_with_suffix artifact network ++ ['_']) tgt entries = false := by
      rw [Bool.eq_false_iff]
      intro hc
      exact hmiss ((cacheScan_eq_true_iff _ tgt entries).mp hc)
    simp only [get_cached_debian_or_download, hl, hm, hk, he]
    simp only [hf, if_neg, hscan]
    simp
    cases env.downloadResult <;> simp

/-- Witness for C5: on an already-correct cache no download is issued. -/
theorem cache_download_iff_no_hash_match_witness :
    get_cached_debian_or_download (strLit "mina-daemon") none (strLit "b1") cacheEnvHit =
      (false, .ok ()) :=
  (cache_download_iff_no_hash_match (strLit "mina-daemon") none (strLit "b1")
      cacheEnvHit [strLit "r/mina-daemon_1.0.deb"] (strLit "aaa")
      [(strLit "mina-daemon_1.0.deb", some (strLit "aaa"))]
      rfl (by decide) rfl rfl rfl).1
    ⟨(strLit "mina-daemon_1.0.deb", some (strLit "aaa")),
      List.mem_cons_self _ _, by decide, rfl⟩

/-! ## C9: docker promotion sequence -/

/-- C9: a promotion with an empty name, source tag or target tag issues no
docker command and fails validation; otherwise the promoter performs exactly
pull (source reference), tag (source to target reference), push (target
reference), with any step's failure preventing all later steps and surfacing
`CommandFailed` with that step's output. -/
theorem promote_pull_tag_push (c : DockerPromoteConfig) (env : DockerEnv) :
    ((c.name = [] ∨ c.source_version = [] ∨ c.target_version = []) →
      (promote c env).1 = [] ∧
        ∃ m, (promote c env).2 = .error (.ValidationError m)) ∧
    (c.name ≠ [] → c.source_version ≠ [] → c.target_version ≠ [] →
      (env.pullSuccess = false →
        promote c env =
          ([DockerCmd.pull (imageRef GCR_REGISTRY c.name c.source_version)],
           .error (.CommandFailed (strLit "Docker pull failed: " ++ env.pullStderr)))) ∧
      (env.pullSuccess = true → env.tagSuccess = false →
        promote c env =
          ([DockerCmd.pull (imageRef GCR_REGISTRY c.name c.source_version),
            DockerCmd.tag (imageRef GCR_REGISTRY c.name c.source_version)
              (imageRef (if c.publishToDockerIo then DOCKER_REGISTRY else GCR_REGISTRY)
                c.name c.target_version)],
           .error (.CommandFailed (strLit "Docker tag failed: " ++ env.tagStderr)))) ∧
      (env.pullSuccess = true → env.tagSuccess = true → env.pushSuccess = false →
        promote c env =
          ([DockerCmd.pull (imageRef GCR_REGISTRY c.name c.source_version),
            DockerCmd.tag (imageRef GCR_REGISTRY c.name c.source_version)
              (imageRef (if c.publishToDockerIo then DOCKER_REGISTRY else GCR_REGISTRY)
                c.name c.target_version),
            DockerCmd.push
              (imageRef (if c.publishToDockerIo then DOCKER_REGISTRY else GCR_REGISTRY)
                c.name c.target_version)],
           .error (.CommandFailed (strLit "Docker push failed: " ++ env.pushStderr)))) ∧
      (env.pullSuccess = true → env.tagSuccess = true → env.pushSuccess = true →
        promote c env =
          ([DockerCmd.pull (imageRef GCR_REGISTRY c.name c.source_version),
            DockerCmd.tag (imageRef GCR_REGISTRY c.name c.source_version)
              (imageRef (if c.publishToDockerIo then DOCKER_REGISTRY else GCR_REGISTRY)
                c.name c.target_version),
            DockerCmd.push
              (imageRef (if c.publishToDockerIo then DOCKER_REGISTRY else GCR_REGISTRY)
                c.name c.target_version)],
           .ok ()))) := by
  constructor
  · intro hempty
    rcases hempty with h | h | h
    · simp [promote, validate_promote_config, h]
    · by_cases hn : c.name = []
      · simp [promote, validate_promote_config, hn]
      · simp [promote, validate_promote_config, hn, h]
    · by_cases hn : c.name = []
      · simp [promote, validate_promote_config, hn]
      · by_cases hs : c.source_version = []
        · simp [promote, validate_promote_config, hn, hs]
        · simp [promote, validate_promote_config, hn, hs, h]
  · intro hn hs ht
    have hval : validate_promote_config c = .ok () := by
      simp [validate_promote_config, hn, hs, ht]
    have hgcr : GCR_REGISTRY ≠ [] := by decide
    have hdio : DOCKER_REGISTRY ≠ [] := by decide
    refine ⟨?_, ?_, ?_, ?_⟩
    · intro hpull
      cases hio : c.publishToDockerIo <;>
        simp [promote, hval, hio, cross_registry_promote, validate_registry_config,
          hgcr, hdio, hn, hs, ht, hpull]
    · intro hpull htag
      cases hio : c.publishToDockerIo <;>
        simp [promote, hval, hio, cross_registry_promote, validate_registry_config,
          hgcr, hdio, hn, hs, ht, hpull, htag]
    · intro hpull htag hpush
      cases hio : c.publishToDockerIo <;>
        simp [promote, hval, hio, cross_registry_promote, validate_registry_config,
          hgcr, hdio, hn, hs, ht, hpull, htag, hpush]
    · intro hpull htag hpush
      cases hio : c.publishToDockerIo <;>
        simp [promote, hval, hio, cross_registry_promote, validate_registry_config,
          hgcr, hdio, hn, hs, ht, hpull, htag, hpush]

/-- Witness for C9: a failing pull aborts after the single pull command. -/
theorem promote_pull_tag_push_witness :
    promote promoteCfg dockerEnvPullFail =
      ([DockerCmd.pull (imageRef GCR_REGISTRY promoteCfg.name promoteCfg.source_version)],
       .error (.CommandFailed (strLit "Docker pull failed: " ++ dockerEnvPullFail.pullStderr))) :=
  ((promote_pull_tag_push promoteCfg dockerEnvPullFail).2
      (by decide) (by decide) (by decide)).1 rfl

/-! ## C3: the repack step and the source archive -/

/-- C3 counterexample: a validated configuration whose new package file name
coincides with the source archive's file name makes `rebuild_package` remove
the file at the source archive's own path before rebuilding over it — the
source archive is not preserved for all validated choices of name/version. -/
theorem rebuild_package_removes_source :
    validate_inputs cfgCollide true = .ok () ∧
    new_deb_filename cfgCollide = cfgCollide.debFile ∧
    FsOp.removeFile cfgCollide.debDir cfgCollide.debFile ∈ (rebuild_package cfgCollide rebuildEnvOk).1 := by
  decide

/-- C3 (amended): provided the target file name `<final-name>_<new-version>.deb`
differs from the source archive's file name, every filesystem operation of the
repack step targets only the new archive path beside the source, never the
source archive's own path. -/
theorem rebuild_package_frame (cfg : ReversionConfig) (env : RebuildEnv) (debExists : Bool)
    (hv : validate_inputs cfg debExists = .ok ())
    (hne : new_deb_filename cfg ≠ cfg.debFile) :
    ∀ op ∈ (rebuild_package cfg env).1,
      op.target = (cfg.debDir, new_deb_filename cfg) ∧
        op.target ≠ (cfg.debDir, cfg.debFile) := by
  intro op hop
  have hgoal : op.target = (cfg.debDir, new_deb_filename cfg) := by
    simp only [rebuild_package] at hop
    by_cases hte : env.targetExists = true
    · simp only [hte, if_true] at hop
      by_cases hrs : env.removeSuccess = true
      · simp [hrs] at hop
        rcases hop with h | h <;> rw [h] <;> rfl
      · simp [Bool.eq_false_iff.mpr hrs] at hop
        rw [hop]; rfl
    · simp [Bool.eq_false_iff.mpr hte] at hop
      rw [hop]; rfl
  refine ⟨hgoal, ?_⟩
  rw [hgoal]
  intro hcontra
  exact hne (congrArg Prod.snd hcontra)

/-- Witness for C3's amended theorem: with a fresh target name, the build
operation touches only the new path, which differs from the source path. -/
theorem rebuild_package_frame_witness :
    (FsOp.removeFile cfgFresh.debDir (new_deb_filename cfgFresh)).target =
        (cfgFresh.debDir, new_deb_filename cfgFresh) ∧
      (FsOp.removeFile cfgFresh.debDir (new_deb_filename cfgFresh)).target ≠
        (cfgFresh.debDir, cfgFresh.debFile) :=
  rebuild_package_frame cfgFresh rebuildEnvOk true (by decide) (by decide)
    (FsOp.removeFile cfgFresh.debDir (new_deb_filename cfgFresh)) (by decide)

/-! ## C10: totality of the metadata patch -/

/-- C10: `update_control_content` is total — for every configuration and input
it returns `Ok`; in particular a patch that modifies no field still succeeds. -/
theorem update_control_content_total (cfg : ReversionConfig) (content : Str) :
    ∃ out, update_control_content cfg content = .ok out :=
  ⟨normalizeStep (distStep cfg (versionStep cfg (pkgStep cfg content))), rfl⟩

/-! ## Decomposition lemmas: searching and replacing across newline-joined
lines -/

theorem isPrefixOf_append_sep (pat x t : Str) (hnl : nlChar ∉ pat) :
    pat.isPrefixOf (x ++ nlChar :: t) = pat.isPrefixOf x := by
  rw [Bool.eq_iff_iff, List.isPrefixOf_iff_prefix, List.isPrefixOf_iff_prefix]
  constructor
  · intro h
    by_cases hlen : pat.length ≤ x.length
    · have h2 : pat = List.take pat.length x := by
        rw [List.prefix_iff_eq_take] at h
        rw [List.take_append_of_le_length hlen] at h
        exact h
      exact List.prefix_iff_eq_take.mpr h2
    · exfalso
      push_neg at hlen
      obtain ⟨u, hu⟩ := h
      have hget : pat[x.length]? = some nlChar := by
        calc pat[x.length]? = (pat ++ u)[x.length]? :=
              (List.getElem?_append_left hlen).symm
          _ = (x ++ nlChar :: t)[x.length]? := by rw [hu]
          _ = some nlChar := by
              rw [List.getElem?_append_right (le_refl x.length)]
              simp
      exact hnl (List.mem_iff_getElem?.mpr ⟨x.length, hget⟩)
  · intro h
    exact h.trans (List.prefix_append x (nlChar :: t))

theorem findSub_some_bound (pat s : Str) (k : Nat) (h : findSub pat s = some k) :
    pat.isPrefixOf (List.drop k s) = true ∧ k + pat.length ≤ s.length := by
  induction s generalizing k with
  | nil =>
    simp only [findSub] at h
    by_cases hp : pat = []
    · subst hp
      rw [if_pos rfl] at h
      cases h
      simp [List.isPrefixOf]
    · rw [if_neg hp] at h
      exact absurd h (by simp)
  | cons c rest ih =>
    simp only [findSub] at h
    by_cases hc : pat.isPrefixOf (c :: rest) = true
    · rw [if_pos hc] at h
      cases h
      refine ⟨hc, ?_⟩
      have := (List.isPrefixOf_iff_prefix.mp hc).length_le
      simpa using this
    · rw [if_neg hc] at h
      rcases Option.map_eq_some'.mp h with ⟨k', hk', rfl⟩
      obtain ⟨h1, h2⟩ := ih k' hk'
      refine ⟨h1, ?_⟩
      simp only [List.length_cons]
      omega

theorem findSub_append_sep_of_some (pat x t : Str) (i : Nat) (hnl : nlChar ∉ pat)
    (h : findSub pat x = some i) : findSub pat (x ++ nlChar :: t) = some i := by
  induction x generalizing i with
  | nil =>
    simp only [findSub] at h
    by_cases hp : pat = []
    · subst hp
      rw [if_pos rfl] at h
      cases h
      simp [findSub, List.isPrefixOf]
    · rw [if_neg hp] at h
      exact absurd h (by simp)
  | cons c x' ih =>
    rw [List.cons_append]
    simp only [findSub] at h ⊢
    have hpre : pat.isPrefixOf (c :: (x' ++ nlChar :: t)) = pat.isPrefixOf (c :: x') := by
      have := isPrefixOf_append_sep pat (c :: x') t hnl
      rwa [List.cons_append] at this
    rw [hpre]
    by_cases hc : pat.isPrefixOf (c :: x') = true
    · rw [if_pos hc] at h ⊢
      exact h
    · rw [if_neg hc] at h ⊢
      rcases Option.map_eq_some'.mp h with ⟨i', hi', rfl⟩
      rw [ih i' hi']
      rfl

theorem findSub_append_sep_of_none (pat x t : Str) (hnl : nlChar ∉ pat)
    (h : findSub pat x = none) :
    findSub pat (x ++ nlChar :: t) = (findSub pat t).map (· + (x.length + 1)) := by
  induction x with
  | nil =>
    simp only [findSub] at h
    by_cases hp : pat = []
    · rw [if_pos hp] at h; exact absurd h (by simp)
    · rw [List.nil_append]
      have hpc : pat.isPrefixOf (nlChar :: t) = false := by
        rw [Bool.eq_false_iff]
        intro hc
        obtain ⟨p0, prest, rfl⟩ : ∃ p0 prest, pat = p0 :: prest := by
          cases pat with
          | nil => exact absurd rfl hp
          | cons a b => exact ⟨a, b, rfl⟩
        rw [List.isPrefixOf_iff_prefix] at hc
        rcases List.cons_prefix_cons.mp hc with ⟨rfl, -⟩
        exact hnl (List.mem_cons_self _ _)
      simp only [findSub, hpc]
      cases findSub pat t <;> simp <;> omega
  | cons c x' ih =>
    simp only [findSub] at h
    by_cases hc : pat.isPrefixOf (c :: x') = true
    · rw [if_pos hc] at h; exact absurd h (by simp)
    · rw [if_neg hc] at h
      have hx' : findSub pat x' = none := by
        cases hfx : findSub pat x' with
        | none => rfl
        | some j => rw [hfx] at h; exact absurd h (by simp)
      rw [List.cons_append]
      simp only [findSub]
      have hpre : pat.isPrefixOf (c :: (x' ++ nlChar :: t)) = pat.isPrefixOf (c :: x') := by
        have := isPrefixOf_append_sep pat (c :: x') t hnl
        rwa [List.cons_append] at this
      rw [hpre, if_neg hc, ih hx']
      cases findSub pat t <;> simp <;> omega

theorem containsSub_append_sep (pat x t : Str) (hnl : nlChar ∉ pat) :
    containsSub pat (x ++ nlChar :: t) = (containsSub pat x || containsSub pat t) := by
  unfold containsSub
  cases hfx : findSub pat x with
  | some i => rw [findSub_append_sep_of_some pat x t i hnl hfx]; simp
  | none =>
    rw [findSub_append_sep_of_none pat x t hnl hfx]
    cases hft : findSub pat t <;> simp

theorem findSub_nl_append (x t : Str) (hnl : nlChar ∉ x) :
    findSub [nlChar] (x ++ nlChar :: t) = some x.length := by
  induction x with
  | nil =>
    simp only [List.nil_append, findSub, List.length_nil]
    rw [if_pos]
    rw [List.isPrefixOf_iff_prefix]
    exact ⟨t, rfl⟩
  | cons c x' ih =>
    rw [List.cons_append]
    simp only [findSub]
    have hc : ([nlChar] : Str).isPrefixOf (c :: (x' ++ nlChar :: t)) = false := by
      rw [Bool.eq_false_iff]
      intro hp
      rw [List.isPrefixOf_iff_prefix] at hp
      rcases List.cons_prefix_cons.mp hp with ⟨heq, -⟩
      exact hnl (heq ▸ List.mem_cons_self _ _)
    rw [hc]
    simp only [Bool.false_eq_true, if_false]
    rw [ih (fun hm => hnl (List.mem_cons_of_mem _ hm))]
    simp

theorem replaceAllGo_fuel_irrel (pat rep : Str) (f1 f2 : Nat) (s : Str)
    (h1 : s.length ≤ f1) (h2 : s.length ≤ f2) :
    replaceAllGo pat rep f1 s = replaceAllGo pat rep f2 s := by
  induction f1 generalizing f2 s with
  | zero =>
    have hs : s = [] := List.length_eq_zero.mp (Nat.le_zero.mp h1)
    subst hs
    cases f2 <;> rfl
  | succ k ih =>
    cases s with
    | nil => cases f2 <;> rfl
    | cons c rest =>
      obtain ⟨m, rfl⟩ : ∃ m, f2 = m + 1 := by
        cases f2 with
        | zero => simp at h2
        | succ m => exact ⟨m, rfl⟩
      simp only [List.length_cons] at h1 h2
      simp only [replaceAllGo]
      by_cases hc : pat.isPrefixOf (c :: rest) = true
      · rw [if_pos hc, if_pos hc]
        congr 1
        apply ih
        · rw [List.length_drop]; omega
        · rw [List.length_drop]; omega
      · rw [if_neg hc, if_neg hc]
        congr 1
        apply ih <;> omega

theorem replaceAllSub_nil_of_ne (pat rep : Str) (hp : pat ≠ []) :
    replaceAllSub pat rep [] = [] := by
  unfold replaceAllSub
  rw [if_neg hp]
  rfl

theorem replaceAllSub_cons_pos (pat rep : Str) (c : Char) (rest : Str) (hp : pat ≠ [])
    (hc : pat.isPrefixOf (c :: rest) = true) :
    replaceAllSub pat rep (c :: rest) =
      rep ++ replaceAllSub pat rep (List.drop (pat.length - 1) rest) := by
  unfold replaceAllSub
  rw [if_neg hp, if_neg hp]
  simp only [List.length_cons, replaceAllGo]
  rw [if_pos hc]
  congr 1
  exact replaceAllGo_fuel_irrel pat rep rest.length _ _
    (by rw [List.length_drop]; omega) (le_refl _)

theorem replaceAllSub_cons_neg (pat rep : Str) (c : Char) (rest : Str) (hp : pat ≠ [])
    (hc : pat.isPrefixOf (c :: rest) = false) :
    replaceAllSub pat rep (c :: rest) = c :: replaceAllSub pat rep rest := by
  unfold replaceAllSub
  rw [if_neg hp, if_neg hp]
  simp only [List.length_cons, replaceAllGo]
  rw [if_neg (by simp [hc])]

theorem isPrefixOf_nil_of_ne (pat : Str) (hp : pat ≠ []) :
    pat.isPrefixOf ([] : Str) = false := by
  cases pat with
  | nil => exact absurd rfl hp
  | cons a b => rfl

theorem containsSub_nil_pattern (s : Str) : containsSub [] s = true := by
  cases s with
  | nil => rfl
  | cons c rest =>
    simp only [containsSub, findSub]
    rw [if_pos (by rw [List.isPrefixOf_iff_prefix]; exact List.nil_prefix)]
    rfl

theorem containsSub_cons_elim (pat : Str) (c : Char) (rest : Str)
    (h : containsSub pat (c :: rest) = false) :
    pat.isPrefixOf (c :: rest) = false ∧ containsSub pat rest = false := by
  simp only [containsSub, findSub] at h
  by_cases hc : pat.isPrefixOf (c :: rest) = true
  · rw [if_pos hc] at h
    exact absurd h (by simp)
  · rw [if_neg hc] at h
    refine ⟨Bool.eq_false_iff.mpr hc, ?_⟩
    simp only [containsSub]
    cases hf : findSub pat rest with
    | none => rfl
    | some j => rw [hf] at h; exact absurd h (by simp)

theorem replaceAllSub_of_not_contains (pat rep s : Str)
    (h : containsSub pat s = false) : replaceAllSub pat rep s = s := by
  have hp : pat ≠ [] := by
    intro he
    subst he
    rw [containsSub_nil_pattern] at h
    exact absurd h (by simp)
  induction s with
  | nil => exact replaceAllSub_nil_of_ne pat rep hp
  | cons c rest ih =>
    obtain ⟨hc, hrest⟩ := containsSub_cons_elim pat c rest h
    rw [replaceAllSub_cons_neg pat rep c rest hp hc, ih hrest]

theorem mem_replaceAllSub (pat rep s : Str) (c : Char)
    (h : c ∈ replaceAllSub pat rep s) : c ∈ rep ∨ c ∈ s := by
  by_cases hp : pat = []
  · subst hp
    unfold replaceAllSub at h
    rw [if_pos rfl] at h
    rcases List.mem_append.mp h with hr | hr
    · exact Or.inl hr
    · rcases List.mem_flatMap.mp hr with ⟨a, ha, hca⟩
      rcases List.mem_cons.mp hca with rfl | hcr
      · exact Or.inr ha
      · exact Or.inl hcr
  · suffices hgen : ∀ n (s' : Str), s'.length ≤ n →
        c ∈ replaceAllSub pat rep s' → c ∈ rep ∨ c ∈ s' by
      exact hgen s.length s (le_refl _) h
    intro n
    induction n with
    | zero =>
      intro s' hlen hmem
      have hs : s' = [] := List.length_eq_zero.mp (Nat.le_zero.mp hlen)
      subst hs
      rw [replaceAllSub_nil_of_ne pat rep hp] at hmem
      exact absurd hmem (List.not_mem_nil c)
    | succ k ih =>
      intro s' hlen hmem
      cases s' with
      | nil =>
        rw [replaceAllSub_nil_of_ne pat rep hp] at hmem
        exact absurd hmem (List.not_mem_nil c)
      | cons a rest =>
        simp only [List.length_cons] at hlen
        by_cases hc : pat.isPrefixOf (a :: rest) = true
        · rw [replaceAllSub_cons_pos pat rep a rest hp hc] at hmem
          rcases List.mem_append.mp hmem with hr | hr
          · exact Or.inl hr
          · rcases ih _ (by rw [List.length_drop]; omega) hr with hr' | hr'
            · exact Or.inl hr'
            · exact Or.inr (List.mem_cons_of_mem _ (List.drop_subset _ _ hr'))
        · rw [replaceAllSub_cons_neg pat rep a rest hp (Bool.eq_false_iff.mpr hc)] at hmem
          rcases List.mem_cons.mp hmem with rfl | hr
          · exact Or.inr (List.mem_cons_self _ _)
          · rcases ih rest (by omega) hr with hr' | hr'
            · exact Or.inl hr'
            · exact Or.inr (List.mem_cons_of_mem _ hr')

theorem replaceAllSub_append_sep (pat rep x t : Str) (hp : pat ≠ []) (hnl : nlChar ∉ pat) :
    replaceAllSub pat rep (x ++ nlChar :: t) =
      replaceAllSub pat rep x ++ nlChar :: replaceAllSub pat rep t := by
  suffices hgen : ∀ fuel (x' : Str), x'.length + (1 + t.length) ≤ fuel →
      replaceAllGo pat rep fuel (x' ++ nlChar :: t) =
        replaceAllSub pat rep x' ++ nlChar :: replaceAllSub pat rep t by
    have hlen : (x ++ nlChar :: t).length = x.length + (1 + t.length) := by
      simp; omega
    have := hgen (x ++ nlChar :: t).length x (by omega)
    rw [← this]
    unfold replaceAllSub
    rw [if_neg hp]
  intro fuel
  induction fuel with
  | zero => intro x' hx'; omega
  | succ k ih =>
    intro x' hx'
    cases x' with
    | nil =>
      simp only [List.nil_append, List.length_nil] at hx' ⊢
      simp only [replaceAllGo]
      have hpc : pat.isPrefixOf (nlChar :: t) = false := by
        have h0 := isPrefixOf_append_sep pat [] t hnl
        rw [List.nil_append] at h0
        rw [h0]
        exact isPrefixOf_nil_of_ne pat hp
      rw [if_neg (by simp [hpc])]
      rw [replaceAllSub_nil_of_ne pat rep hp, List.nil_append]
      congr 1
      unfold replaceAllSub
      rw [if_neg hp]
      exact replaceAllGo_fuel_irrel pat rep k t.length t (by omega) (le_refl _)
    | cons a xr =>
      rw [List.cons_append]
      simp only [List.length_cons] at hx'
      simp only [replaceAllGo]
      have hpre : pat.isPrefixOf (a :: (xr ++ nlChar :: t)) = pat.isPrefixOf (a :: xr) := by
        have h0 := isPrefixOf_append_sep pat (a :: xr) t hnl
        rwa [List.cons_append] at h0
      rw [hpre]
      by_cases hc : pat.isPrefixOf (a :: xr) = true
      · rw [if_pos hc]
        have hlenp : pat.length ≤ xr.length + 1 := by
          have := (List.isPrefixOf_iff_prefix.mp hc).length_le
          simpa using this
        have hdrop : List.drop (pat.length - 1) (xr ++ nlChar :: t) =
            List.drop (pat.length - 1) xr ++ nlChar :: t :=
          List.drop_append_of_le_length (by omega)
        rw [hdrop, ih _ (by rw [List.length_drop]; omega)]
        rw [replaceAllSub_cons_pos pat rep a xr hp hc, List.append_assoc]
      · rw [if_neg (by simp [hc])]
        rw [ih xr (by omega)]
        rw [replaceAllSub_cons_neg pat rep a xr hp (Bool.eq_false_iff.mpr hc)]
        rfl

/-! ## Trailing-whitespace lemmas -/

theorem getLast?_cons_of_ne_nil (a : Char) (rest : Str) (h : rest ≠ []) :
    (a :: rest).getLast? = rest.getLast? := by
  cases rest with
  | nil => exact absurd rfl h
  | cons r0 r' => exact List.getLast?_cons_cons

theorem trimEnd_cons (c : Char) (rest : Str) :
    trimEnd (c :: rest) =
      if trimEnd rest = [] ∧ rustIsWs c = true then [] else c :: trimEnd rest := rfl

theorem trimEnd_eq_self_iff (s : Str) :
    trimEnd s = s ↔ ∀ c, s.getLast? = some c → rustIsWs c = false := by
  induction s with
  | nil => simp [trimEnd]
  | cons c rest ih =>
    cases rest with
    | nil =>
      rw [trimEnd_cons]
      simp only [List.getLast?_singleton]
      by_cases hw : rustIsWs c = true
      · rw [if_pos ⟨rfl, hw⟩]
        constructor
        · intro h; exact absurd h.symm (List.cons_ne_nil c [])
        · intro h; exact absurd (h c rfl) (by simp [hw])
      · rw [if_neg (fun hand => hw hand.2)]
        constructor
        · intro _ d hd
          cases Option.some.inj hd
          exact Bool.eq_false_iff.mpr hw
        · intro _; rfl
    | cons r0 r' =>
      have hlast : (c :: r0 :: r').getLast? = (r0 :: r').getLast? := List.getLast?_cons_cons
      constructor
      · intro h d hd
        have hr : trimEnd (r0 :: r') = r0 :: r' := by
          rw [trimEnd_cons] at h
          by_cases hcond : trimEnd (r0 :: r') = [] ∧ rustIsWs c = true
          · rw [if_pos hcond] at h
            exact absurd h.symm (List.cons_ne_nil _ _)
          · rw [if_neg hcond] at h
            injection h
        exact (ih.mp hr) d (hlast ▸ hd)
      · intro h
        have hr : trimEnd (r0 :: r') = r0 :: r' :=
          ih.mpr (fun d hd => h d (hlast.trans hd))
        rw [trimEnd_cons]
        rw [if_neg (fun hcond => (List.cons_ne_nil r0 r') (hr.symm.trans hcond.1))]
        rw [hr]

theorem trimEnd_append_good (a b : Str) (hb : trimEnd b = b) (hbne : b ≠ []) :
    trimEnd (a ++ b) = a ++ b := by
  induction a with
  | nil => simpa using hb
  | cons c a' ih =>
    rw [List.cons_append, trimEnd_cons, ih]
    rw [if_neg (fun hcond => hbne (List.append_eq_nil.mp hcond.1).2)]

theorem getLast?_drop_of_ne_nil (s : Str) (k : Nat) (h : List.drop k s ≠ []) :
    (List.drop k s).getLast? = s.getLast? := by
  conv_rhs => rw [← List.take_append_drop k s]
  rw [List.getLast?_append_of_ne_nil _ h]

theorem trimEnd_drop_good (s : Str) (k : Nat) (hs : trimEnd s = s)
    (h : List.drop k s ≠ []) : trimEnd (List.drop k s) = List.drop k s := by
  rw [trimEnd_eq_self_iff]
  intro c hc
  rw [getLast?_drop_of_ne_nil s k h] at hc
  exact (trimEnd_eq_self_iff s).mp hs c hc

theorem replaceAllSub_getLast? (pat rep s : Str) (hp : pat ≠ []) (hrepne : rep ≠ [])
    (hsne : s ≠ []) :
    replaceAllSub pat rep s ≠ [] ∧
      ((replaceAllSub pat rep s).getLast? = s.getLast? ∨
        (replaceAllSub pat rep s).getLast? = rep.getLast?) := by
  suffices hgen : ∀ n (s' : Str), s'.length ≤ n → s' ≠ [] →
      replaceAllSub pat rep s' ≠ [] ∧
        ((replaceAllSub pat rep s').getLast? = s'.getLast? ∨
          (replaceAllSub pat rep s').getLast? = rep.getLast?) by
    exact hgen s.length s (le_refl _) hsne
  intro n
  induction n with
  | zero =>
    intro s' hlen hne
    exact absurd (List.length_eq_zero.mp (Nat.le_zero.mp hlen)) hne
  | succ k ih =>
    intro s' hlen hne
    cases s' with
    | nil => exact absurd rfl hne
    | cons a rest =>
      simp only [List.length_cons] at hlen
      by_cases hc : pat.isPrefixOf (a :: rest) = true
      · rw [replaceAllSub_cons_pos pat rep a rest hp hc]
        by_cases hd : List.drop (pat.length - 1) rest = []
        · rw [hd, replaceAllSub_nil_of_ne pat rep hp, List.append_nil]
          exact ⟨hrepne, Or.inr rfl⟩
        · obtain ⟨hne', hlast'⟩ :=
            ih (List.drop (pat.length - 1) rest) (by rw [List.length_drop]; omega) hd
          have hrest : rest ≠ [] := by
            intro hr; rw [hr] at hd; exact hd (List.drop_nil)
          refine ⟨by simp [hne'], ?_⟩
          rw [List.getLast?_append_of_ne_nil rep hne']
          rcases hlast' with hl | hl
          · left
            rw [hl, getLast?_drop_of_ne_nil rest _ hd,
              getLast?_cons_of_ne_nil a rest hrest]
          · right
            exact hl
      · rw [replaceAllSub_cons_neg pat rep a rest hp (Bool.eq_false_iff.mpr hc)]
        by_cases hrest : rest = []
        · subst hrest
          rw [replaceAllSub_nil_of_ne pat rep hp]
          exact ⟨List.cons_ne_nil a [], Or.inl rfl⟩
        · obtain ⟨hne', hlast'⟩ := ih rest (by omega) hrest
          refine ⟨List.cons_ne_nil _ _, ?_⟩
          rw [getLast?_cons_of_ne_nil a _ hne',
            getLast?_cons_of_ne_nil a rest hrest]
          exact hlast'

theorem replaceAllSub_good (pat rep s : Str) (hp : pat ≠ []) (hrep : trimEnd rep = rep)
    (hrepne : rep ≠ []) (hs : trimEnd s = s) (hsne : s ≠ []) :
    trimEnd (replaceAllSub pat rep s) = replaceAllSub pat rep s ∧
      replaceAllSub pat rep s ≠ [] := by
  obtain ⟨hne, hlast⟩ := replaceAllSub_getLast? pat rep s hp hrepne hsne
  refine ⟨?_, hne⟩
  rw [trimEnd_eq_self_iff]
  intro c hc
  rcases hlast with hl | hl
  · exact (trimEnd_eq_self_iff s).mp hs c (hl ▸ hc)
  · exact (trimEnd_eq_self_iff rep).mp hrep c (hl ▸ hc)

/-! ## Lines round trip -/

theorem splitOnChar_ne_nil (sep : Char) (s : Str) : splitOnChar sep s ≠ [] := by
  cases s with
  | nil => simp [splitOnChar]
  | cons c rest =>
    simp only [splitOnChar]
    by_cases hc : c = sep
    · rw [if_pos hc]; simp
    · rw [if_neg hc]
      cases splitOnChar sep rest <;> simp

theorem splitOnChar_sep_append (sep : Char) (l s : Str) (h : sep ∉ l) :
    splitOnChar sep (l ++ sep :: s) = l :: splitOnChar sep s := by
  induction l with
  | nil =>
    rw [List.nil_append]
    simp [splitOnChar]
  | cons c l' ih =>
    rw [List.cons_append]
    simp only [splitOnChar]
    rw [if_neg (fun hc : c = sep => h (by rw [← hc]; exact List.mem_cons_self c l'))]
    rw [ih (fun hm => h (List.mem_cons_of_mem _ hm))]

theorem linesGo_cons₂ (a b : Str) (r : List Str) :
    linesGo (a :: b :: r) = stripCr a :: linesGo (b :: r) := rfl

theorem rustLines_termJoin (ls : List Str)
    (h : ∀ l ∈ ls, nlChar ∉ l ∧ l.getLast? ≠ some '\r') :
    rustLines (termJoin ls) = ls := by
  induction ls with
  | nil => rfl
  | cons l rest ih =>
    obtain ⟨hnl, hcr⟩ := h l (List.mem_cons_self _ _)
    show linesGo (splitOnChar nlChar (l ++ nlChar :: termJoin rest)) = l :: rest
    rw [splitOnChar_sep_append nlChar l (termJoin rest) hnl]
    have hsp := splitOnChar_ne_nil nlChar (termJoin rest)
    obtain ⟨b, r, hbr⟩ : ∃ b r, splitOnChar nlChar (termJoin rest) = b :: r := by
      cases hc : splitOnChar nlChar (termJoin rest) with
      | nil => exact absurd hc hsp
      | cons b r => exact ⟨b, r, rfl⟩
    rw [hbr, linesGo_cons₂]
    have hstrip : stripCr l = l := by
      unfold stripCr
      rw [if_neg hcr]
    rw [hstrip]
    have := ih (fun l' hl' => h l' (List.mem_cons_of_mem _ hl'))
    unfold rustLines at this
    rw [hbr] at this
    rw [this]

theorem termJoin_ne_nil (ls : List Str) (h : ls ≠ []) : termJoin ls ≠ [] := by
  cases ls with
  | nil => exact absurd rfl h
  | cons l rest =>
    show l ++ nlChar :: termJoin rest ≠ []
    simp

theorem termJoin_eq_joinLines (ls : List Str) (h : ls ≠ []) :
    termJoin ls = joinLines ls ++ [nlChar] := by
  induction ls with
  | nil => exact absurd rfl h
  | cons l rest ih =>
    cases rest with
    | nil => rfl
    | cons r0 r' =>
      show l ++ nlChar :: termJoin (r0 :: r') =
        (l ++ nlChar :: joinLines (r0 :: r')) ++ [nlChar]
      rw [ih (List.cons_ne_nil r0 r')]
      simp

theorem termJoin_getLast? (ls : List Str) (h : ls ≠ []) :
    (termJoin ls).getLast? = some nlChar := by
  rw [termJoin_eq_joinLines ls h]
  exact List.getLast?_concat _

theorem joinLines_getLast? (ls : List Str) (L : Str)
    (hlast : ls.getLast? = some L) (hLne : L ≠ []) :
    (joinLines ls).getLast? = L.getLast? := by
  induction ls with
  | nil => exact absurd hlast (by simp)
  | cons l rest ih =>
    cases rest with
    | nil =>
      rw [List.getLast?_singleton] at hlast
      cases Option.some.inj hlast
      rfl
    | cons r0 r' =>
      rw [List.getLast?_cons_cons] at hlast
      have hjr := ih hlast
      have hjrne : joinLines (r0 :: r') ≠ [] := by
        intro hnil
        rw [hnil] at hjr
        have : L.getLast? = none := hjr.symm
        rw [List.getLast?_eq_none_iff] at this
        exact hLne this
      show (l ++ nlChar :: joinLines (r0 :: r')).getLast? = L.getLast?
      rw [List.getLast?_append_of_ne_nil _ (List.cons_ne_nil _ _)]
      rw [getLast?_cons_of_ne_nil _ _ hjrne]
      exact hjr

theorem oneTrailingNewline_termJoin (ls : List Str) (L : Str) (hne : ls ≠ [])
    (hlast : ls.getLast? = some L) (hLne : L ≠ []) (hLgood : trimEnd L = L) :
    oneTrailingNewline (termJoin ls) = true := by
  rw [termJoin_eq_joinLines ls hne]
  unfold oneTrailingNewline
  rw [List.getLast?_concat, List.dropLast_concat]
  have hlg := joinLines_getLast? ls L hlast hLne
  obtain ⟨c, hc⟩ : ∃ c, L.getLast? = some c := by
    cases hcc : L.getLast? with
    | none => exact absurd (List.getLast?_eq_none_iff.mp hcc) hLne
    | some c => exact ⟨c, rfl⟩
  have hcw : rustIsWs c = false := (trimEnd_eq_self_iff L).mp hLgood c hc
  have hcnl : c ≠ nlChar := by
    intro h
    rw [h] at hcw
    exact absurd hcw (by decide)
  rw [hlg, hc]
  simp [hcnl]

theorem normalizeStep_termJoin (ls : List Str) (hne : ls ≠ [])
    (hok : ∀ l ∈ ls, nlChar ∉ l ∧ trimEnd l = l)
    (hlastne : ls.getLast? ≠ some []) :
    normalizeStep (termJoin ls) = termJoin ls := by
  obtain ⟨L, hL⟩ : ∃ L, ls.getLast? = some L := by
    cases hc : ls.getLast? with
    | none => exact absurd (List.getLast?_eq_none_iff.mp hc) hne
    | some L => exact ⟨L, rfl⟩
  have hLne : L ≠ [] := by
    intro h
    rw [h] at hL
    exact hlastne hL
  have hLmem : L ∈ ls := List.mem_of_getLast?_eq_some hL
  have hLgood : trimEnd L = L := (hok L hLmem).2
  unfold normalizeStep
  rw [termJoin_getLast? ls hne, if_pos rfl]
  show (if List.getLast? (joinLines (List.map trimEnd (rustLines (termJoin ls)))) = some nlChar
      then joinLines (List.map trimEnd (rustLines (termJoin ls)))
      else joinLines (List.map trimEnd (rustLines (termJoin ls))) ++ [nlChar]) = termJoin ls
  have hlines : rustLines (termJoin ls) = ls := by
    apply rustLines_termJoin
    intro l hl
    refine ⟨(hok l hl).1, ?_⟩
    intro hcr
    have := (trimEnd_eq_self_iff l).mp (hok l hl).2 '\r' hcr
    exact absurd this (by decide)
  rw [hlines]
  have hmap : ls.map trimEnd = ls := by
    rw [List.map_congr_left (fun l hl => (hok l hl).2)]
    exact List.map_id ls
  rw [hmap]
  have hjl := joinLines_getLast? ls L hL hLne
  obtain ⟨c, hc⟩ : ∃ c, L.getLast? = some c := by
    cases hcc : L.getLast? with
    | none => exact absurd (List.getLast?_eq_none_iff.mp hcc) hLne
    | some c => exact ⟨c, rfl⟩
  have hcw : rustIsWs c = false := (trimEnd_eq_self_iff L).mp hLgood c hc
  have hnleq : ¬ (joinLines ls).getLast? = some nlChar := by
    rw [hjl, hc]
    intro h
    cases Option.some.inj h
    exact absurd hcw (by decide)
  rw [if_neg hnleq]
  exact (termJoin_eq_joinLines ls hne).symm

/-! ## The patch blocks act linewise on newline-terminated content -/

theorem replaceAllSub_termJoin (pat rep : Str) (ls : List Str) (hp : pat ≠ [])
    (hnl : nlChar ∉ pat) :
    replaceAllSub pat rep (termJoin ls) = termJoin (ls.map (replaceAllSub pat rep)) := by
  induction ls with
  | nil => exact replaceAllSub_nil_of_ne pat rep hp
  | cons l rest ih =>
    show replaceAllSub pat rep (l ++ nlChar :: termJoin rest) = _
    rw [replaceAllSub_append_sep pat rep l (termJoin rest) hp hnl, ih]
    rfl

theorem containsSub_termJoin (pat : Str) (ls : List Str) (hp : pat ≠ [])
    (hnl : nlChar ∉ pat) :
    containsSub pat (termJoin ls) = ls.any (fun l => containsSub pat l) := by
  induction ls with
  | nil =>
    show containsSub pat [] = false
    simp only [containsSub, findSub]
    rw [if_neg hp]
    rfl
  | cons l rest ih =>
    show containsSub pat (l ++ nlChar :: termJoin rest) = _
    rw [containsSub_append_sep pat l (termJoin rest) hnl, ih]
    rfl

theorem pkgStep_termJoin (cfg : ReversionConfig) (ls : List Str)
    (hpn : nlChar ∉ cfg.package_name) :
    pkgStep cfg (termJoin ls) = termJoin (ls.map (pkgLineEdit cfg)) := by
  cases hn : cfg.new_name with
  | none =>
    have hmap : ls.map (pkgLineEdit cfg) = ls := by
      calc ls.map (pkgLineEdit cfg) = ls.map id :=
            List.map_congr_left (fun l _ => by simp [pkgLineEdit, hn, id])
        _ = ls := List.map_id ls
    rw [hmap]
    simp [pkgStep, hn]
  | some nn =>
    have hlit : strLit "Package: " ≠ ([] : Str) := by decide
    have hppat : strLit "Package: " ++ cfg.package_name ≠ [] := by
      intro h
      exact hlit (List.append_eq_nil.mp h).1
    have hpnl : nlChar ∉ strLit "Package: " ++ cfg.package_name := by
      intro hm
      rcases List.mem_append.mp hm with hm | hm
      · exact absurd hm (by decide)
      · exact hpn hm
    simp only [pkgStep, hn]
    by_cases hc : containsSub (strLit "Package: " ++ cfg.package_name) (termJoin ls) = true
    · rw [if_pos hc]
      rw [replaceAllSub_termJoin _ _ ls hppat hpnl]
      congr 1
      exact List.map_congr_left (fun l _ => by simp [pkgLineEdit, hn])
    · rw [if_neg hc]
      have hall : ∀ l ∈ ls,
          containsSub (strLit "Package: " ++ cfg.package_name) l = false := by
        have hany := containsSub_termJoin _ ls hppat hpnl
        rw [Bool.eq_false_iff.mpr hc] at hany
        intro l hl
        exact Bool.eq_false_iff.mpr (List.any_eq_false.mp hany.symm l hl)
      have hmap : ls.map (pkgLineEdit cfg) = ls := by
        calc ls.map (pkgLineEdit cfg) = ls.map id := by
              refine List.map_congr_left (fun l hl => ?_)
              simp only [pkgLineEdit, hn, id]
              exact replaceAllSub_of_not_contains _ _ l (hall l hl)
          _ = ls := List.map_id ls
      rw [hmap]

theorem versionStep_head (cfg : ReversionConfig) (l r : Str)
    (hnl : nlChar ∉ l) (hc : containsSub (strLit "Version: ") l = true) :
    versionStep cfg (l ++ nlChar :: r) = versionLineEdit cfg l ++ nlChar :: r := by
  obtain ⟨k, hk⟩ : ∃ k, findSub (strLit "Version: ") l = some k :=
    Option.isSome_iff_exists.mp hc
  have hnlpat : nlChar ∉ strLit "Version: " := by decide
  have hfind := findSub_append_sep_of_some _ l r k hnlpat hk
  obtain ⟨hpre, hbound⟩ := findSub_some_bound _ l k hk
  have hvlen : (strLit "Version: ").length = 9 := by decide
  have hkle : k ≤ l.length := by omega
  have hdrop : List.drop k (l ++ nlChar :: r) = List.drop k l ++ nlChar :: r :=
    List.drop_append_of_le_length hkle
  have hnl2 : nlChar ∉ List.drop k l := fun hm => hnl (List.drop_subset _ _ hm)
  have hfnl := findSub_nl_append (List.drop k l) r hnl2
  have hslice : sliceStr (l ++ nlChar :: r) k (k + (List.drop k l).length) =
      List.drop k l := by
    unfold sliceStr
    rw [Nat.add_sub_cancel_left, hdrop]
    exact List.take_left _ _
  simp only [versionStep, hfind, hdrop, hfnl, hslice]
  simp only [versionLineEdit, hk]
  by_cases hcv : containsSub cfg.source_version (List.drop k l) = true
  · rw [if_pos hcv, if_pos hcv]
    unfold replaceRange
    rw [List.take_append_of_le_length hkle]
    have hsum : k + (List.drop k l).length = l.length := by
      rw [List.length_drop]
      omega
    rw [hsum, List.drop_left]
  · rw [if_neg (by simp [hcv]), if_neg (by simp [hcv])]

theorem versionStep_shift (cfg : ReversionConfig) (l r : Str)
    (hnl : nlChar ∉ l) (hc : containsSub (strLit "Version: ") l = false) :
    versionStep cfg (l ++ nlChar :: r) = l ++ nlChar :: versionStep cfg r := by
  have hnone : findSub (strLit "Version: ") l = none := by
    cases h : findSub (strLit "Version: ") l with
    | none => rfl
    | some k =>
      rw [containsSub, h] at hc
      exact absurd hc (by simp)
  have hnlpat : nlChar ∉ strLit "Version: " := by decide
  have hfind := findSub_append_sep_of_none _ l r hnlpat hnone
  cases hr : findSub (strLit "Version: ") r with
  | none =>
    rw [hr] at hfind
    simp only [versionStep, hfind, hr, Option.map_none']
  | some k =>
    rw [hr] at hfind
    simp only [Option.map_some'] at hfind
    have hdrop : List.drop (k + (l.length + 1)) (l ++ nlChar :: r) = List.drop k r := by
      have h1 : k + (l.length + 1) = l.length + (k + 1) := by omega
      rw [h1, List.drop_append, List.drop_succ_cons]
    simp only [versionStep, hfind, hr, hdrop]
    cases hrel : findSub [nlChar] (List.drop k r) with
    | none => simp only [hrel]
    | some rel =>
      simp only [hrel]
      have hslice : sliceStr (l ++ nlChar :: r) (k + (l.length + 1))
          (k + (l.length + 1) + rel) = sliceStr r k (k + rel) := by
        unfold sliceStr
        have h1 : k + (l.length + 1) + rel - (k + (l.length + 1)) = rel := by omega
        have h2 : k + rel - k = rel := by omega
        rw [h1, h2, hdrop]
      rw [hslice]
      by_cases hcv : containsSub cfg.source_version (sliceStr r k (k + rel)) = true
      · rw [if_pos hcv, if_pos hcv]
        unfold replaceRange
        have htake : List.take (k + (l.length + 1)) (l ++ nlChar :: r) =
            l ++ nlChar :: List.take k r := by
          have h1 : k + (l.length + 1) = l.length + (k + 1) := by omega
          rw [h1, List.take_append, List.take_succ_cons]
        have hdrop2 : List.drop (k + (l.length + 1) + rel) (l ++ nlChar :: r) =
            List.drop (k + rel) r := by
          have h1 : k + (l.length + 1) + rel = l.length + ((k + rel) + 1) := by omega
          rw [h1, List.drop_append, List.drop_succ_cons]
        rw [htake, hdrop2]
        simp
      · rw [if_neg (by simp [hcv]), if_neg (by simp [hcv])]

theorem distStep_head (cfg : ReversionConfig) (l r : Str)
    (hnl : nlChar ∉ l) (hc : containsSub (strLit "Distribution: ") l = true) :
    distStep cfg (l ++ nlChar :: r) = distLineEdit cfg l ++ nlChar :: r := by
  obtain ⟨k, hk⟩ : ∃ k, findSub (strLit "Distribution: ") l = some k :=
    Option.isSome_iff_exists.mp hc
  have hnlpat : nlChar ∉ strLit "Distribution: " := by decide
  have hfind := findSub_append_sep_of_some _ l r k hnlpat hk
  obtain ⟨hpre, hbound⟩ := findSub_some_bound _ l k hk
  have hkle : k ≤ l.length := by
    have hvlen : (strLit "Distribution: ").length = 14 := by decide
    omega
  have hdrop : List.drop k (l ++ nlChar :: r) = List.drop k l ++ nlChar :: r :=
    List.drop_append_of_le_length hkle
  have hnl2 : nlChar ∉ List.drop k l := fun hm => hnl (List.drop_subset _ _ hm)
  have hfnl := findSub_nl_append (List.drop k l) r hnl2
  simp only [distStep, hfind, hdrop, hfnl]
  simp only [distLineEdit, hk]
  unfold replaceRange
  rw [List.take_append_of_le_length hkle]
  have hsum : k + (List.drop k l).length = l.length := by
    rw [List.length_drop]
    omega
  rw [hsum, List.drop_left]
  simp

theorem distStep_shift (cfg : ReversionConfig) (l r : Str)
    (hnl : nlChar ∉ l) (hc : containsSub (strLit "Distribution: ") l = false) :
    distStep cfg (l ++ nlChar :: r) = l ++ nlChar :: distStep cfg r := by
  have hnone : findSub (strLit "Distribution: ") l = none := by
    cases h : findSub (strLit "Distribution: ") l with
    | none => rfl
    | some k =>
      rw [containsSub, h] at hc
      exact absurd hc (by simp)
  have hnlpat : nlChar ∉ strLit "Distribution: " := by decide
  have hfind := findSub_append_sep_of_none _ l r hnlpat hnone
  cases hr : findSub (strLit "Distribution: ") r with
  | none =>
    rw [hr] at hfind
    simp only [distStep, hfind, hr, Option.map_none']
  | some k =>
    rw [hr] at hfind
    simp only [Option.map_some'] at hfind
    have hdrop : List.drop (k + (l.length + 1)) (l ++ nlChar :: r) = List.drop k r := by
      have h1 : k + (l.length + 1) = l.length + (k + 1) := by omega
      rw [h1, List.drop_append, List.drop_succ_cons]
    simp only [distStep, hfind, hr, hdrop]
    cases hrel : findSub [nlChar] (List.drop k r) with
    | none => simp only [hrel]
    | some rel =>
      simp only [hrel]
      unfold replaceRange
      have htake : List.take (k + (l.length + 1)) (l ++ nlChar :: r) =
          l ++ nlChar :: List.take k r := by
        have h1 : k + (l.length + 1) = l.length + (k + 1) := by omega
        rw [h1, List.take_append, List.take_succ_cons]
      have hdrop2 : List.drop (k + (l.length + 1) + rel) (l ++ nlChar :: r) =
          List.drop (k + rel) r := by
        have h1 : k + (l.length + 1) + rel = l.length + ((k + rel) + 1) := by omega
        rw [h1, List.drop_append, List.drop_succ_cons]
      rw [htake, hdrop2]
      simp

theorem versionStep_termJoin (cfg : ReversionConfig) (ls : List Str)
    (hnl : ∀ l ∈ ls, nlChar ∉ l) :
    versionStep cfg (termJoin ls) = termJoin (versionLines cfg ls) := by
  induction ls with
  | nil =>
    show versionStep cfg [] = []
    have h0 : findSub (strLit "Version: ") ([] : Str) = none := by decide
    simp [versionStep, h0]
  | cons l rest ih =>
    show versionStep cfg (l ++ nlChar :: termJoin rest) = _
    by_cases hc : containsSub (strLit "Version: ") l = true
    · rw [versionStep_head cfg l _ (hnl l (List.mem_cons_self _ _)) hc]
      simp only [versionLines]
      rw [if_pos hc]
      rfl
    · rw [versionStep_shift cfg l _ (hnl l (List.mem_cons_self _ _))
        (Bool.eq_false_iff.mpr hc)]
      rw [ih (fun l' h' => hnl l' (List.mem_cons_of_mem _ h'))]
      simp only [versionLines]
      rw [if_neg hc]
      rfl

theorem distStep_termJoin (cfg : ReversionConfig) (ls : List Str)
    (hnl : ∀ l ∈ ls, nlChar ∉ l) :
    distStep cfg (termJoin ls) = termJoin (distLines cfg ls) := by
  induction ls with
  | nil =>
    show distStep cfg [] = []
    have h0 : findSub (strLit "Distribution: ") ([] : Str) = none := by decide
    simp [distStep, h0]
  | cons l rest ih =>
    show distStep cfg (l ++ nlChar :: termJoin rest) = _
    by_cases hc : containsSub (strLit "Distribution: ") l = true
    · rw [distStep_head cfg l _ (hnl l (List.mem_cons_self _ _)) hc]
      simp only [distLines]
      rw [if_pos hc]
      rfl
    · rw [distStep_shift cfg l _ (hnl l (List.mem_cons_self _ _))
        (Bool.eq_false_iff.mpr hc)]
      rw [ih (fun l' h' => hnl l' (List.mem_cons_of_mem _ h'))]
      simp only [distLines]
      rw [if_neg hc]
      rfl

/-! ## Properties of the line-level edits -/

theorem containsSub_ne_nil_of_true (pat s : Str) (hp : pat ≠ [])
    (h : containsSub pat s = true) : s ≠ [] := by
  intro he
  subst he
  simp only [containsSub, findSub] at h
  rw [if_neg hp] at h
  exact absurd h (by simp)

theorem pkgLineEdit_ok (cfg : ReversionConfig) (l : Str)
    (hlnl : nlChar ∉ l) (hltr : trimEnd l = l)
    (hpn : nlChar ∉ cfg.package_name)
    (hnn : ∀ nn, cfg.new_name = some nn → nlChar ∉ nn ∧ trimEnd nn = nn ∧ nn ≠ []) :
    nlChar ∉ pkgLineEdit cfg l ∧ trimEnd (pkgLineEdit cfg l) = pkgLineEdit cfg l ∧
      (pkgLineEdit cfg l = l ∨ pkgLineEdit cfg l ≠ []) := by
  cases hn : cfg.new_name with
  | none => simp [pkgLineEdit, hn, hlnl, hltr]
  | some nn =>
    obtain ⟨hnnl, hnntr, hnne⟩ := hnn nn hn
    simp only [pkgLineEdit, hn]
    have hppat : strLit "Package: " ++ cfg.package_name ≠ [] :=
      fun h => absurd (List.append_eq_nil.mp h).1 (by decide)
    have hrepne : strLit "Package: " ++ nn ≠ [] :=
      fun h => absurd (List.append_eq_nil.mp h).1 (by decide)
    have hrnl : nlChar ∉ strLit "Package: " ++ nn := by
      intro hm
      rcases List.mem_append.mp hm with hm | hm
      · exact absurd hm (by decide)
      · exact hnnl hm
    have hnlres : nlChar ∉ replaceAllSub (strLit "Package: " ++ cfg.package_name)
        (strLit "Package: " ++ nn) l := by
      intro hm
      rcases mem_replaceAllSub _ _ l nlChar hm with hm | hm
      · exact hrnl hm
      · exact hlnl hm
    by_cases hc : containsSub (strLit "Package: " ++ cfg.package_name) l = true
    · have hlne : l ≠ [] := containsSub_ne_nil_of_true _ l hppat hc
      have hrtr : trimEnd (strLit "Package: " ++ nn) = strLit "Package: " ++ nn :=
        trimEnd_append_good _ _ hnntr hnne
      obtain ⟨htr, hne⟩ := replaceAllSub_good _ _ l hppat hrtr hrepne hltr hlne
      exact ⟨hnlres, htr, Or.inr hne⟩
    · have hid := replaceAllSub_of_not_contains (strLit "Package: " ++ cfg.package_name)
        (strLit "Package: " ++ nn) l (Bool.eq_false_iff.mpr hc)
      rw [hid]
      exact ⟨hlnl, hltr, Or.inl rfl⟩

theorem versionLineEdit_ok (cfg : ReversionConfig) (l : Str)
    (hlnl : nlChar ∉ l) (hltr : trimEnd l = l)
    (hsv : cfg.source_version ≠ [])
    (hnv : nlChar ∉ cfg.new_version ∧ trimEnd cfg.new_version = cfg.new_version ∧
      cfg.new_version ≠ []) :
    nlChar ∉ versionLineEdit cfg l ∧
      trimEnd (versionLineEdit cfg l) = versionLineEdit cfg l ∧
      (versionLineEdit cfg l = l ∨ versionLineEdit cfg l ≠ []) := by
  obtain ⟨hnvnl, hnvtr, hnvne⟩ := hnv
  cases hk : findSub (strLit "Version: ") l with
  | none => simp [versionLineEdit, hk, hlnl, hltr]
  | some k =>
    simp only [versionLineEdit, hk]
    by_cases hcv : containsSub cfg.source_version (List.drop k l) = true
    · rw [if_pos hcv]
      obtain ⟨hpre, hbound⟩ := findSub_some_bound _ l k hk
      have hdropne : List.drop k l ≠ [] := by
        intro h
        rw [h, isPrefixOf_nil_of_ne _ (by decide : strLit "Version: " ≠ [])] at hpre
        exact absurd hpre (by simp)
      have hdtr : trimEnd (List.drop k l) = List.drop k l := trimEnd_drop_good l k hltr hdropne
      obtain ⟨htr, hne⟩ := replaceAllSub_good cfg.source_version cfg.new_version
        (List.drop k l) hsv hnvtr hnvne hdtr hdropne
      refine ⟨?_, trimEnd_append_good _ _ htr hne, Or.inr (by simp [hne])⟩
      intro hm
      rcases List.mem_append.mp hm with hm | hm
      · exact hlnl (List.take_subset _ _ hm)
      · rcases mem_replaceAllSub _ _ _ _ hm with hm | hm
        · exact hnvnl hm
        · exact hlnl (List.drop_subset _ _ hm)
    · rw [if_neg (by simp [hcv])]
      exact ⟨hlnl, hltr, Or.inl rfl⟩

theorem distLineEdit_ok (cfg : ReversionConfig) (l : Str)
    (hlnl : nlChar ∉ l) (hltr : trimEnd l = l)
    (hns : nlChar ∉ cfg.new_suite ∧ trimEnd cfg.new_suite = cfg.new_suite ∧
      cfg.new_suite ≠ []) :
    nlChar ∉ distLineEdit cfg l ∧
      trimEnd (distLineEdit cfg l) = distLineEdit cfg l ∧
      (distLineEdit cfg l = l ∨ distLineEdit cfg l ≠ []) := by
  obtain ⟨hnsnl, hnstr, hnsne⟩ := hns
  cases hk : findSub (strLit "Distribution: ") l with
  | none => simp [distLineEdit, hk, hlnl, hltr]
  | some k =>
    simp only [distLineEdit, hk]
    refine ⟨?_, ?_, Or.inr (by simp [hnsne])⟩
    · intro hm
      rcases List.mem_append.mp hm with hm | hm
      · rcases List.mem_append.mp hm with hm | hm
        · exact hlnl (List.take_subset _ _ hm)
        · exact absurd hm (by decide)
      · exact hnsnl hm
    · exact trimEnd_append_good _ _ hnstr hnsne

/-! ## Index-wise behaviour of the line-level passes -/

theorem versionLines_length (cfg : ReversionConfig) (ls : List Str) :
    (versionLines cfg ls).length = ls.length := by
  induction ls with
  | nil => rfl
  | cons l rest ih =>
    by_cases hc : containsSub (strLit "Version: ") l = true
    · simp [versionLines, hc]
    · simp [versionLines, hc, ih]

theorem distLines_length (cfg : ReversionConfig) (ls : List Str) :
    (distLines cfg ls).length = ls.length := by
  induction ls with
  | nil => rfl
  | cons l rest ih =>
    by_cases hc : containsSub (strLit "Distribution: ") l = true
    · simp [distLines, hc]
    · simp [distLines, hc, ih]

theorem versionLines_getElem?_of_ne (cfg : ReversionConfig) (ls : List Str) (i : Nat)
    (h : firstIdxWith (fun l => containsSub (strLit "Version: ") l) ls ≠ some i) :
    (versionLines cfg ls)[i]? = ls[i]? := by
  induction ls generalizing i with
  | nil => rfl
  | cons l rest ih =>
    by_cases hc : containsSub (strLit "Version: ") l = true
    · have hi : i ≠ 0 := by
        intro h0
        subst h0
        exact h (by simp [firstIdxWith, hc])
      obtain ⟨j, rfl⟩ : ∃ j, i = j + 1 := ⟨i - 1, by omega⟩
      simp [versionLines, hc]
    · cases i with
      | zero => simp [versionLines, hc]
      | succ j =>
        have hr : firstIdxWith (fun l => containsSub (strLit "Version: ") l) rest ≠
            some j := by
          intro hj
          exact h (by simp [firstIdxWith, hc, hj])
        simp only [versionLines, if_neg hc, List.getElem?_cons_succ]
        exact ih j hr

theorem distLines_getElem?_of_ne (cfg : ReversionConfig) (ls : List Str) (i : Nat)
    (h : firstIdxWith (fun l => containsSub (strLit "Distribution: ") l) ls ≠ some i) :
    (distLines cfg ls)[i]? = ls[i]? := by
  induction ls generalizing i with
  | nil => rfl
  | cons l rest ih =>
    by_cases hc : containsSub (strLit "Distribution: ") l = true
    · have hi : i ≠ 0 := by
        intro h0
        subst h0
        exact h (by simp [firstIdxWith, hc])
      obtain ⟨j, rfl⟩ : ∃ j, i = j + 1 := ⟨i - 1, by omega⟩
      simp [distLines, hc]
    · cases i with
      | zero => simp [distLines, hc]
      | succ j =>
        have hr : firstIdxWith (fun l => containsSub (strLit "Distribution: ") l) rest ≠
            some j := by
          intro hj
          exact h (by simp [firstIdxWith, hc, hj])
        simp only [distLines, if_neg hc, List.getElem?_cons_succ]
        exact ih j hr

theorem versionLines_getElem?_or (cfg : ReversionConfig) (ls : List Str) (i : Nat) :
    (versionLines cfg ls)[i]? = ls[i]? ∨
      ∃ l, ls[i]? = some l ∧ (versionLines cfg ls)[i]? = some (versionLineEdit cfg l) := by
  induction ls generalizing i with
  | nil => exact Or.inl rfl
  | cons l rest ih =>
    by_cases hc : containsSub (strLit "Version: ") l = true
    · cases i with
      | zero => exact Or.inr ⟨l, by simp, by simp [versionLines, hc]⟩
      | succ j => exact Or.inl (by simp [versionLines, hc])
    · cases i with
      | zero => exact Or.inl (by simp [versionLines, hc])
      | succ j =>
        rcases ih j with h | ⟨l', hl', he⟩
        · exact Or.inl (by simp only [versionLines, if_neg hc, List.getElem?_cons_succ]; exact h)
        · refine Or.inr ⟨l', by simpa using hl', ?_⟩
          simp only [versionLines, if_neg hc, List.getElem?_cons_succ]
          exact he

theorem distLines_getElem?_or (cfg : ReversionConfig) (ls : List Str) (i : Nat) :
    (distLines cfg ls)[i]? = ls[i]? ∨
      ∃ l, ls[i]? = some l ∧ (distLines cfg ls)[i]? = some (distLineEdit cfg l) := by
  induction ls generalizing i with
  | nil => exact Or.inl rfl
  | cons l rest ih =>
    by_cases hc : containsSub (strLit "Distribution: ") l = true
    · cases i with
      | zero => exact Or.inr ⟨l, by simp, by simp [distLines, hc]⟩
      | succ j => exact Or.inl (by simp [distLines, hc])
    · cases i with
      | zero => exact Or.inl (by simp [distLines, hc])
      | succ j =>
        rcases ih j with h | ⟨l', hl', he⟩
        · exact Or.inl (by simp only [distLines, if_neg hc, List.getElem?_cons_succ]; exact h)
        · refine Or.inr ⟨l', by simpa using hl', ?_⟩
          simp only [distLines, if_neg hc, List.getElem?_cons_succ]
          exact he

theorem versionLines_getElem?_eq_edit (cfg : ReversionConfig) (ls : List Str) (i : Nat)
    (l : Str)
    (hfi : firstIdxWith (fun l => containsSub (strLit "Version: ") l) ls = some i)
    (hl : ls[i]? = some l) :
    (versionLines cfg ls)[i]? = some (versionLineEdit cfg l) := by
  induction ls generalizing i with
  | nil => simp [firstIdxWith] at hfi
  | cons a rest ih =>
    by_cases hc : containsSub (strLit "Version: ") a = true
    · have hi : i = 0 := by
        rw [firstIdxWith, if_pos hc] at hfi
        exact (Option.some.inj hfi).symm
      subst hi
      have ha : a = l := by simpa using hl
      subst ha
      simp [versionLines, hc]
    · rw [firstIdxWith, if_neg hc] at hfi
      obtain ⟨j, hj, rfl⟩ := Option.map_eq_some'.mp hfi
      simp only [versionLines, if_neg hc, List.getElem?_cons_succ] at hl ⊢
      exact ih j hj hl

theorem versionLines_mem (cfg : ReversionConfig) (ls : List Str) (l' : Str)
    (h : l' ∈ versionLines cfg ls) :
    l' ∈ ls ∨ ∃ l ∈ ls, l' = versionLineEdit cfg l := by
  induction ls with
  | nil => exact absurd h (by simp [versionLines])
  | cons a rest ih =>
    by_cases hc : containsSub (strLit "Version: ") a = true
    · rw [versionLines, if_pos hc] at h
      rcases List.mem_cons.mp h with rfl | hm
      · exact Or.inr ⟨a, List.mem_cons_self _ _, rfl⟩
      · exact Or.inl (List.mem_cons_of_mem _ hm)
    · rw [versionLines, if_neg hc] at h
      rcases List.mem_cons.mp h with rfl | hm
      · exact Or.inl (List.mem_cons_self _ _)
      · rcases ih hm with hm' | ⟨l, hlm, hle⟩
        · exact Or.inl (List.mem_cons_of_mem _ hm')
        · exact Or.inr ⟨l, List.mem_cons_of_mem _ hlm, hle⟩

theorem distLines_mem (cfg : ReversionConfig) (ls : List Str) (l' : Str)
    (h : l' ∈ distLines cfg ls) :
    l' ∈ ls ∨ ∃ l ∈ ls, l' = distLineEdit cfg l := by
  induction ls with
  | nil => exact absurd h (by simp [distLines])
  | cons a rest ih =>
    by_cases hc : containsSub (strLit "Distribution: ") a = true
    · rw [distLines, if_pos hc] at h
      rcases List.mem_cons.mp h with rfl | hm
      · exact Or.inr ⟨a, List.mem_cons_self _ _, rfl⟩
      · exact Or.inl (List.mem_cons_of_mem _ hm)
    · rw [distLines, if_neg hc] at h
      rcases List.mem_cons.mp h with rfl | hm
      · exact Or.inl (List.mem_cons_self _ _)
      · rcases ih hm with hm' | ⟨l, hlm, hle⟩
        · exact Or.inl (List.mem_cons_of_mem _ hm')
        · exact Or.inr ⟨l, List.mem_cons_of_mem _ hlm, hle⟩

theorem distLines_id (cfg : ReversionConfig) (ls : List Str)
    (h : ∀ l ∈ ls, containsSub (strLit "Distribution: ") l = false) :
    distLines cfg ls = ls := by
  induction ls with
  | nil => rfl
  | cons a rest ih =>
    rw [distLines, if_neg (by simp [h a (List.mem_cons_self _ _)])]
    rw [ih (fun l hl => h l (List.mem_cons_of_mem _ hl))]

/-! ## C1: the metadata patch on well-formed control files -/

/-- C1 (amended): on a control file made of newline-terminated lines free of
trailing whitespace whose final line is nonempty, and for configuration
strings free of newlines (with nonempty, trim-clean new version, new suite and
new name), the patch emits exactly the line-level rewrite `controlLines`: the
line count is preserved, the output ends in exactly one trailing newline, no
output line carries trailing whitespace, and every line not targeted — not
containing `Package: <old-name>` (when renaming), not the line holding the
first `Version: ` occurrence, and not the line holding the first
`Distribution: ` occurrence — is byte-identical to the input line. -/
theorem update_control_content_frame (cfg : ReversionConfig) (ls : List Str)
    (hne : ls ≠ [])
    (hok : ∀ l ∈ ls, nlChar ∉ l ∧ trimEnd l = l)
    (hlastne : ls.getLast? ≠ some [])
    (hpn : nlChar ∉ cfg.package_name)
    (hnn : ∀ nn, cfg.new_name = some nn → nlChar ∉ nn ∧ trimEnd nn = nn ∧ nn ≠ [])
    (hsv : cfg.source_version ≠ [])
    (hnv : nlChar ∉ cfg.new_version ∧ trimEnd cfg.new_version = cfg.new_version ∧
      cfg.new_version ≠ [])
    (hns : nlChar ∉ cfg.new_suite ∧ trimEnd cfg.new_suite = cfg.new_suite ∧
      cfg.new_suite ≠ []) :
    update_control_content cfg (termJoin ls) = .ok (termJoin (controlLines cfg ls)) ∧
    (controlLines cfg ls).length = ls.length ∧
    oneTrailingNewline (termJoin (controlLines cfg ls)) = true ∧
    (∀ l ∈ controlLines cfg ls, trimEnd l = l) ∧
    (∀ i : Nat,
      (∀ nn l, cfg.new_name = some nn → ls[i]? = some l →
        containsSub (strLit "Package: " ++ cfg.package_name) l = false) →
      firstIdxWith (fun l => containsSub (strLit "Version: ") l)
        (ls.map (pkgLineEdit cfg)) ≠ some i →
      firstIdxWith (fun l => containsSub (strLit "Distribution: ") l)
        (versionLines cfg (ls.map (pkgLineEdit cfg))) ≠ some i →
      (controlLines cfg ls)[i]? = ls[i]?) := by
  have hok1 : ∀ l ∈ ls.map (pkgLineEdit cfg), nlChar ∉ l ∧ trimEnd l = l := by
    intro l' hl'
    rcases List.mem_map.mp hl' with ⟨l, hl, rfl⟩
    obtain ⟨h1, h2, -⟩ := pkgLineEdit_ok cfg l (hok l hl).1 (hok l hl).2 hpn hnn
    exact ⟨h1, h2⟩
  have hok2 : ∀ l ∈ versionLines cfg (ls.map (pkgLineEdit cfg)),
      nlChar ∉ l ∧ trimEnd l = l := by
    intro l' hl'
    rcases versionLines_mem cfg _ l' hl' with hm | ⟨l, hl, rfl⟩
    · exact hok1 l' hm
    · obtain ⟨h1, h2, -⟩ := versionLineEdit_ok cfg l (hok1 l hl).1 (hok1 l hl).2 hsv hnv
      exact ⟨h1, h2⟩
  have hok3 : ∀ l ∈ controlLines cfg ls, nlChar ∉ l ∧ trimEnd l = l := by
    intro l' hl'
    rcases distLines_mem cfg _ l' hl' with hm | ⟨l, hl, rfl⟩
    · exact hok2 l' hm
    · obtain ⟨h1, h2, -⟩ := distLineEdit_ok cfg l (hok2 l hl).1 (hok2 l hl).2 hns
      exact ⟨h1, h2⟩
  have hlen3 : (controlLines cfg ls).length = ls.length := by
    unfold controlLines
    rw [distLines_length, versionLines_length, List.length_map]
  have hne3 : controlLines cfg ls ≠ [] := by
    intro h
    apply hne
    have := hlen3
    rw [h] at this
    exact (List.length_eq_zero.mp this.symm)
  have hidx1 : ∀ (i : Nat) (l1 : Str), (ls.map (pkgLineEdit cfg))[i]? = some l1 →
      (ls[i]? = some l1 ∨ l1 ≠ []) := by
    intro i l1 h1
    rw [List.getElem?_map] at h1
    rcases Option.map_eq_some'.mp h1 with ⟨l, hl, hle⟩
    have hmem : l ∈ ls := List.mem_iff_getElem?.mpr ⟨i, hl⟩
    obtain ⟨-, -, hor⟩ := pkgLineEdit_ok cfg l (hok l hmem).1 (hok l hmem).2 hpn hnn
    rcases hor with heq | hne'
    · left; rw [hl, ← hle, heq]
    · right; rw [← hle]; exact hne'
  have hidx2 : ∀ (i : Nat) (l2 : Str),
      (versionLines cfg (ls.map (pkgLineEdit cfg)))[i]? = some l2 →
      (ls[i]? = some l2 ∨ l2 ≠ []) := by
    intro i l2 h2
    rcases versionLines_getElem?_or cfg (ls.map (pkgLineEdit cfg)) i with h | ⟨l1, hl1, he⟩
    · exact hidx1 i l2 (by rw [← h]; exact h2)
    · rw [he] at h2
      cases Option.some.inj h2
      have hmem1 : l1 ∈ ls.map (pkgLineEdit cfg) := List.mem_iff_getElem?.mpr ⟨i, hl1⟩
      obtain ⟨-, -, hor⟩ :=
        versionLineEdit_ok cfg l1 (hok1 l1 hmem1).1 (hok1 l1 hmem1).2 hsv hnv
      rcases hor with heq | hne'
      · rw [heq]; exact hidx1 i l1 hl1
      · exact Or.inr hne'
  have hidx3 : ∀ (i : Nat) (l3 : Str), (controlLines cfg ls)[i]? = some l3 →
      (ls[i]? = some l3 ∨ l3 ≠ []) := by
    intro i l3 h3
    rcases distLines_getElem?_or cfg (versionLines cfg (ls.map (pkgLineEdit cfg))) i with
      h | ⟨l2, hl2, he⟩
    · exact hidx2 i l3 (by rw [← h]; exact h3)
    · rw [show controlLines cfg ls =
          distLines cfg (versionLines cfg (ls.map (pkgLineEdit cfg))) from rfl, he] at h3
      cases Option.some.inj h3
      have hmem2 : l2 ∈ versionLines cfg (ls.map (pkgLineEdit cfg)) :=
        List.mem_iff_getElem?.mpr ⟨i, hl2⟩
      obtain ⟨-, -, hor⟩ := distLineEdit_ok cfg l2 (hok2 l2 hmem2).1 (hok2 l2 hmem2).2 hns
      rcases hor with heq | hne'
      · rw [heq]; exact hidx2 i l2 hl2
      · exact Or.inr hne'
  have hlast3 : (controlLines cfg ls).getLast? ≠ some [] := by
    intro hcon
    have hL3 : (controlLines cfg ls)[(controlLines cfg ls).length - 1]? = some [] := by
      rw [← List.getLast?_eq_getElem?]
      exact hcon
    rcases hidx3 _ [] hL3 with h | h
    · apply hlastne
      rw [List.getLast?_eq_getElem?]
      rw [hlen3] at h
      exact h
    · exact h rfl
  have hmain : update_control_content cfg (termJoin ls) =
      .ok (termJoin (controlLines cfg ls)) := by
    unfold update_control_content
    rw [pkgStep_termJoin cfg ls hpn]
    rw [versionStep_termJoin cfg _ (fun l hl => (hok1 l hl).1)]
    rw [distStep_termJoin cfg _ (fun l hl => (hok2 l hl).1)]
    rw [show distLines cfg (versionLines cfg (List.map (pkgLineEdit cfg) ls)) =
      controlLines cfg ls from rfl]
    rw [normalizeStep_termJoin (controlLines cfg ls) hne3 hok3 hlast3]
  obtain ⟨L3, hL3some⟩ : ∃ L3, (controlLines cfg ls).getLast? = some L3 := by
    cases hc : (controlLines cfg ls).getLast? with
    | none => exact absurd (List.getLast?_eq_none_iff.mp hc) hne3
    | some L3 => exact ⟨L3, rfl⟩
  have hL3ne : L3 ≠ [] := fun h => hlast3 (h ▸ hL3some)
  have hL3good : trimEnd L3 = L3 :=
    (hok3 L3 (List.mem_of_getLast?_eq_some hL3some)).2
  refine ⟨hmain, hlen3, ?_, fun l hl => (hok3 l hl).2, ?_⟩
  · exact oneTrailingNewline_termJoin _ L3 hne3 hL3some hL3ne hL3good
  · intro i hpkg hver hdist
    have h3 : (controlLines cfg ls)[i]? =
        (versionLines cfg (ls.map (pkgLineEdit cfg)))[i]? :=
      distLines_getElem?_of_ne cfg _ i hdist
    have h2 : (versionLines cfg (ls.map (pkgLineEdit cfg)))[i]? =
        (ls.map (pkgLineEdit cfg))[i]? :=
      versionLines_getElem?_of_ne cfg _ i hver
    have h1 : (ls.map (pkgLineEdit cfg))[i]? = ls[i]? := by
      rw [List.getElem?_map]
      cases hl : ls[i]? with
      | none => rfl
      | some l =>
        simp only [Option.map_some']
        congr 1
        cases hn : cfg.new_name with
        | none => simp [pkgLineEdit, hn]
        | some nn =>
          have hcf := hpkg nn l hn hl
          simp only [pkgLineEdit, hn]
          exact replaceAllSub_of_not_contains _ _ l hcf
    rw [h3, h2, h1]

/-- Witness for C1's amended theorem on the Rust unit test's control file. -/
theorem update_control_content_frame_witness :
    update_control_content cfgBase (termJoin ctrlLinesW) =
      .ok (termJoin (controlLines cfgBase ctrlLinesW)) :=
  (update_control_content_frame cfgBase ctrlLinesW (by decide) (by decide) (by decide)
    (by decide)
    (fun nn h => by
      cases Option.some.inj h
      decide)
    (by decide) (by decide) (by decide)).1

/-- C1 counterexample: on input ending in blank lines the patch collapses
them, producing output that ends in TWO newlines (and is not byte-identical on
the untouched content), refuting the exactly-one-trailing-newline guarantee as
universally stated. -/
theorem update_control_content_trailing_newlines :
    update_control_content cfgPlain (strLit "A: b\n\n\n") = .ok (strLit "A: b\n\n") ∧
      oneTrailingNewline (strLit "A: b\n\n") = false := by
  decide

/-! ## C7: which line the version replacement touches -/

/-- C7 (amended): the version patch rewrites exactly the line containing the
first occurrence of `Version: ` anywhere in the content — which need not be
the version field's own line — replacing the old-version substring only from
that occurrence to the end of that line; every other line (in particular every
other occurrence of the old-version string) is left byte-identical. -/
theorem version_replace_first_occurrence_line (cfg : ReversionConfig) (ls : List Str)
    (hne : ls ≠ [])
    (hok : ∀ l ∈ ls, nlChar ∉ l ∧ trimEnd l = l)
    (hlastne : ls.getLast? ≠ some [])
    (hnoname : cfg.new_name = none)
    (hnodist : ∀ l ∈ versionLines cfg ls,
      containsSub (strLit "Distribution: ") l = false)
    (hsv : cfg.source_version ≠ [])
    (hnv : nlChar ∉ cfg.new_version ∧ trimEnd cfg.new_version = cfg.new_version ∧
      cfg.new_version ≠ []) :
    update_control_content cfg (termJoin ls) = .ok (termJoin (versionLines cfg ls)) ∧
    (∀ i : Nat,
      firstIdxWith (fun l => containsSub (strLit "Version: ") l) ls ≠ some i →
      (versionLines cfg ls)[i]? = ls[i]?) ∧
    (∀ (i : Nat) (l : Str),
      firstIdxWith (fun l => containsSub (strLit "Version: ") l) ls = some i →
      ls[i]? = some l →
      (versionLines cfg ls)[i]? = some (versionLineEdit cfg l)) := by
  have hok2 : ∀ l ∈ versionLines cfg ls, nlChar ∉ l ∧ trimEnd l = l := by
    intro l' hl'
    rcases versionLines_mem cfg _ l' hl' with hm | ⟨l, hl, rfl⟩
    · exact hok l' hm
    · obtain ⟨h1, h2, -⟩ := versionLineEdit_ok cfg l (hok l hl).1 (hok l hl).2 hsv hnv
      exact ⟨h1, h2⟩
  have hlenv : (versionLines cfg ls).length = ls.length := versionLines_length cfg ls
  have hnev : versionLines cfg ls ≠ [] := by
    intro h
    apply hne
    have := hlenv
    rw [h] at this
    exact List.length_eq_zero.mp this.symm
  have hidxv : ∀ (i : Nat) (l2 : Str), (versionLines cfg ls)[i]? = some l2 →
      (ls[i]? = some l2 ∨ l2 ≠ []) := by
    intro i l2 h2
    rcases versionLines_getElem?_or cfg ls i with h | ⟨l1, hl1, he⟩
    · left; rw [← h]; exact h2
    · rw [he] at h2
      cases Option.some.inj h2
      have hmem1 : l1 ∈ ls := List.mem_iff_getElem?.mpr ⟨i, hl1⟩
      obtain ⟨-, -, hor⟩ :=
        versionLineEdit_ok cfg l1 (hok l1 hmem1).1 (hok l1 hmem1).2 hsv hnv
      rcases hor with heq | hne'
      · rw [heq]; exact Or.inl hl1
      · exact Or.inr hne'
  have hlastv : (versionLines cfg ls).getLast? ≠ some [] := by
    intro hcon
    have hL : (versionLines cfg ls)[(versionLines cfg ls).length - 1]? = some [] := by
      rw [← List.getLast?_eq_getElem?]
      exact hcon
    rcases hidxv _ [] hL with h | h
    · apply hlastne
      rw [List.getLast?_eq_getElem?]
      rw [hlenv] at h
      exact h
    · exact h rfl
  refine ⟨?_, fun i h => versionLines_getElem?_of_ne cfg ls i h,
    fun i l hfi hl => versionLines_getElem?_eq_edit cfg ls i l hfi hl⟩
  unfold update_control_content
  have hpkg : pkgStep cfg (termJoin ls) = termJoin ls := by
    simp [pkgStep, hnoname]
  rw [hpkg]
  rw [versionStep_termJoin cfg ls (fun l hl => (hok l hl).1)]
  rw [distStep_termJoin cfg _ (fun l hl => (hok2 l hl).1)]
  rw [distLines_id cfg _ hnodist]
  rw [normalizeStep_termJoin _ hnev hok2 hlastv]

/-- Witness for C7's amended theorem. -/
theorem version_replace_first_occurrence_line_witness :
    update_control_content cfgVer (termJoin ctrlLinesVer) =
      .ok (termJoin (versionLines cfgVer ctrlLinesVer)) :=
  (version_replace_first_occurrence_line cfgVer ctrlLinesVer (by decide) (by decide)
    (by decide) rfl (by decide) (by decide) (by decide)).1

/-- C7 counterexample: with old version `1.0`, the patch rewrites the line
`Desc: see Version: 1.0 x` — not a version field — because it holds the first
`Version: ` occurrence, while the actual `Version: 1.0` field line keeps the
old version: the replacement is not confined to the version field's own line. -/
theorem version_replace_wrong_line :
    update_control_content cfgVer
        (strLit "Desc: see Version: 1.0 x\nVersion: 1.0\n") =
      .ok (strLit "Desc: see Version: 2.0 x\nVersion: 1.0\n") := by
  decide
